import Mathlib

/-!
# Verification of the Come Down cache core

A shallow embedding of the retain-counted cache store and the
reconciliation-pass logic of the `obsidian-come-down` plugin
(`src/CacheManager.ts`, `src/ProcessingPass.ts`, `src/main.ts`,
`src/cache/CacheMetadata.ts`), together with proofs of the spec's
claims about it.

JavaScript objects (`Record<string, T>`) are modelled as insertion-ordered
association lists `List (String × T)`: assignment updates the first entry
in place or appends a fresh key at the end, `delete` removes the entry,
iteration follows list order.  `Set` and arrays are plain lists.
The xxhash64 key hash is an opaque parameter `h64`; the embedding keeps
the source's structure around it (`hashString` trims before hashing).
-/

/-! ## Association-list model of JavaScript objects -/

/-- `obj[k]` — first entry with key `k`, if any. -/
def alookup {α : Type} : List (String × α) → String → Option α
  | [], _ => none
  | (k', v) :: t, k => if k' = k then some v else alookup t k

/-- `obj[k] = v` — replace the value of an existing key in place, else append. -/
def aset {α : Type} : List (String × α) → String → α → List (String × α)
  | [], k, v => [(k, v)]
  | (k', v') :: t, k, v => if k' = k then (k', v) :: t else (k', v') :: aset t k v

/-- `delete obj[k]` — remove the (first) entry with key `k`. -/
def aerase {α : Type} : List (String × α) → String → List (String × α)
  | [], _ => []
  | (k', v) :: t, k => if k' = k then t else (k', v) :: aerase t k

/-- Keys of an object, in insertion order (`Object.keys`). -/
def akeys {α : Type} (l : List (String × α)) : List String := l.map Prod.fst

/-- `retainCounts[cacheKey]++`, guarded by `cacheKey in retainCounts`:
increments the entry if the key is registered, otherwise does nothing. -/
def bumpCount : List (String × Int) → String → List (String × Int)
  | [], _ => []
  | (k', n) :: t, k => if k' = k then (k', n + 1) :: t else (k', n) :: bumpCount t k

/-- `retainCount[cacheKey]--`.  On a registered key the count drops by one;
on an unregistered key JavaScript would store `NaN`, which the subsequent
`== 0` test can never satisfy, so the model leaves the record unchanged. -/
def decrCount : List (String × Int) → String → List (String × Int)
  | [], _ => []
  | (k', n) :: t, k => if k' = k then (k', n - 1) :: t else (k', n) :: decrCount t k

/-! ## JavaScript `String.prototype.trim` -/

/-- JavaScript WhiteSpace / LineTerminator characters recognised by `trim()`. -/
def isJsWhitespaceChar (c : Char) : Bool :=
  c = ' ' ∨ c = '\t' ∨ c = '\n' ∨ c = '\r' ∨ c = '\x0b' ∨ c = '\x0c' ∨
  c = ' ' ∨ c = '﻿'

/-- Drop trailing characters satisfying `p`. -/
def dropRightWhile {α : Type} (p : α → Bool) (l : List α) : List α :=
  (l.reverse.dropWhile p).reverse

/-- `String.prototype.trim` on the character list: strip leading and
trailing JavaScript whitespace. -/
def jsTrimList (l : List Char) : List Char :=
  dropRightWhile isJsWhitespaceChar (l.dropWhile isJsWhitespaceChar)

/-- `src.trim()`. -/
def jsTrim (s : String) : String := String.mk (jsTrimList s.data)

/-! ## Cache data model (`cache/CacheMetadata.ts`) -/

inductive CacheType where
  | UNDEFINED
  | IMAGE
  deriving DecidableEq, Repr

/-- `CacheMetadataFile` — file facts (`f` record, short field names as in source). -/
structure CacheMetadataFile where
  s : String
  n : String
  e : String
  sz : Nat
  ct : Option String
  ch : String
  deriving DecidableEq, Repr

/-- `CacheMetadataImage` — parsed image metadata (`image-size` may leave
width/height undefined). -/
structure CacheMetadataImage where
  w : Option Nat
  h : Option Nat
  t : String
  deriving DecidableEq, Repr

/-- `CacheMetadataTime`. -/
structure CacheMetadataTime where
  d : String
  l : String
  cc : Option String
  deriving DecidableEq, Repr

/-- `CacheMetadata` — one record per cache key. -/
structure CacheMetadata where
  ty : CacheType
  ti : CacheMetadataTime
  f : CacheMetadataFile
  i : Option CacheMetadataImage
  deriving DecidableEq, Repr

/-- `CacheRequest`. -/
structure CacheRequest where
  source : String
  requesterPath : String
  deriving DecidableEq, Repr

/-- The `CacheManager`'s mutable state relevant to the claims:
`metadataRoot.retainers`, `metadataRoot.items`, the set of cache keys whose
blob file exists in the cache directory (the blob's path is determined by
the key plus the metadata's extension, so the disk is indexed by key), and
the `isMetadataDirty` flag. -/
structure CacheState where
  retainers : List (String × List String)
  items : List (String × CacheMetadata)
  disk : List String
  isMetadataDirty : Bool
  deriving DecidableEq, Repr

/-! ## Cache keys (`CacheManager` hashing helpers) -/

/-- `hashString`: `hasher.h64ToString(text.trim())`, with the xxhash64
`h64ToString` left opaque as the parameter `h64`. -/
def hashString (h64 : String → String) (text : String) : String :=
  h64 (jsTrim text)

/-- `CacheManager.createCacheKeyFromOriginalSrc`. -/
def createCacheKeyFromOriginalSrc (h64 : String → String) (src : String) : String :=
  hashString h64 src

/-- `CacheManager.createCacheKeyFromRequest`. -/
def createCacheKeyFromRequest (h64 : String → String) (request : CacheRequest) : String :=
  createCacheKeyFromOriginalSrc h64 request.source

/-! ## Retain counting (`CacheManager.retainCount`) -/

/-- `CacheManager.retainCount(byRetainer?)`: register the in-memory cache
keys at count 0 (or only the keys referenced by `byRetainer`), then walk
every retainer and increment each registered key once per occurrence in the
retainer's `ref`. -/
def retainCount (s : CacheState) (byRetainer : Option (List String)) :
    List (String × Int) :=
  let keys := match byRetainer with
    | some refs => refs
    | none => akeys s.items
  let init := keys.foldl (fun acc k => aset acc k 0) []
  s.retainers.foldl (fun acc pr => pr.2.foldl bumpCount acc) init

/-- The number of retainer records whose `ref` contains `k` (the spec's
definition of the global retain count). -/
def countRetainersContaining (s : CacheState) (k : String) : Nat :=
  (s.retainers.filter (fun pr => pr.2.contains k)).length

/-! ## Removal (`CacheManager.removeCacheItem`, `removeRetainer`) -/

/-- `CacheManager.removeCacheItem`: when the key has a metadata entry,
remove the blob from disk and delete the metadata entry; otherwise (the
asserted-impossible case) do nothing. -/
def removeCacheItem (s : CacheState) (cacheKey : String) : CacheState :=
  match alookup s.items cacheKey with
  | none => s
  | some _ =>
      { s with disk := s.disk.erase cacheKey, items := aerase s.items cacheKey }

/-- The release loop shared by the GC paths: for every removed reference
whose (pre-computed) retain count is 0, remove the cache item. -/
def gcDeleteRemoved (rc : List (String × Int)) (removed : List String)
    (s : CacheState) : CacheState :=
  removed.foldl (fun st k => if alookup rc k = some 0 then removeCacheItem st k else st) s

/-- One iteration of `removeRetainer`'s release loop:
`retainCount[cacheKey]--`, then remove the cache item when the count
reached 0. -/
def releaseStep (acc : CacheState × List (String × Int)) (k : String) :
    CacheState × List (String × Int) :=
  let rc' := decrCount acc.2 k
  (if alookup rc' k = some 0 then removeCacheItem acc.1 k else acc.1, rc')

/-- `CacheManager.removeRetainer`: release every reference of the retainer
(decrementing a by-retainer count record as it goes, removing items that
reach 0), then delete the retainer record and mark the metadata dirty. -/
def removeRetainer (s : CacheState) (path : String) : CacheState :=
  match alookup s.retainers path with
  | none => s
  | some refs =>
      let rc0 := retainCount s (some refs)
      let s' := (refs.foldl releaseStep (s, rc0)).1
      { s' with retainers := aerase s'.retainers path, isMetadataDirty := true }

/-! ## `CacheManager.updateRetainedCaches` (the version under `src/`) -/

/-- The deduplicated key list `newCi` built from the request list. -/
def newCiOf (h64 : String → String) (requests : List CacheRequest) : List String :=
  requests.foldl
    (fun acc r =>
      let cacheKey := createCacheKeyFromRequest h64 r
      if acc.contains cacheKey then acc else acc ++ [cacheKey])
    []

/-- `removedReferences = oldCi.filter(key => !newCi.includes(key))`. -/
def removedReferencesOf (h64 : String → String) (requests : List CacheRequest)
    (retainerPath : String) (s : CacheState) : List String :=
  let oldCi := (alookup s.retainers retainerPath).getD []
  let newCi := newCiOf h64 requests
  oldCi.filter (fun k => ! newCi.contains k)

/-- `addedReferences = newCi.filter(key => !oldCi.includes(key))`. -/
def addedReferencesOf (h64 : String → String) (requests : List CacheRequest)
    (retainerPath : String) (s : CacheState) : List String :=
  let oldCi := (alookup s.retainers retainerPath).getD []
  let newCi := newCiOf h64 requests
  newCi.filter (fun k => ! oldCi.contains k)

/-- The state after `this.isMetadataDirty = true` and `retainer.ref = newCi`
(creating the record when absent). -/
def gcMidState (h64 : String → String) (requests : List CacheRequest)
    (retainerPath : String) (s : CacheState) : CacheState :=
  { s with isMetadataDirty := true,
           retainers := aset s.retainers retainerPath (newCiOf h64 requests) }

/-- The state after the release loop of `updateRetainedCaches`: retain
counts are computed once on the mid state (`const retainCount =
this.retainCount()`), then every removed reference with count 0 is
deleted. -/
def gcAfterDelete (h64 : String → String) (requests : List CacheRequest)
    (retainerPath : String) (s : CacheState) : CacheState :=
  gcDeleteRemoved (retainCount (gcMidState h64 requests retainerPath s) none)
    (removedReferencesOf h64 requests retainerPath s)
    (gcMidState h64 requests retainerPath s)

/-- `CacheManager.updateRetainedCaches(requests, retainerPath)`: diff the
deduplicated new reference set against the retainer's previous one; on no
change return unchanged; otherwise mark dirty, store the new `ref`,
recompute retain counts, remove every released key whose count is 0, and
drop the retainer record entirely when its new reference set is empty
(`retainer.ref.length == 0`, where `ref` was just set to `newCi`). -/
def updateRetainedCaches (h64 : String → String) (requests : List CacheRequest)
    (retainerPath : String) (s : CacheState) : CacheState :=
  if (addedReferencesOf h64 requests retainerPath s).isEmpty
      ∧ (removedReferencesOf h64 requests retainerPath s).isEmpty then s
  else
    let s2 := gcAfterDelete h64 requests retainerPath s
    if (newCiOf h64 requests).isEmpty
    then { s2 with retainers := aerase s2.retainers retainerPath } else s2

/-- `CacheManager.saveMetadataIfDirty`: returns whether a persistence write
happens, and the state afterwards (`saveMetadata` clears the dirty flag). -/
def saveMetadataIfDirty (s : CacheState) : Bool × CacheState :=
  (s.isMetadataDirty, if s.isMetadataDirty then { s with isMetadataDirty := false } else s)

/-! ## Operation sequences over the store -/

/-- The retain-bookkeeping operations a sequence of passes performs. -/
inductive CacheOp where
  | update (requests : List CacheRequest) (retainerPath : String)
  | removeRet (path : String)

def applyOp (h64 : String → String) (s : CacheState) : CacheOp → CacheState
  | .update requests retainerPath => updateRetainedCaches h64 requests retainerPath s
  | .removeRet path => removeRetainer s path

def runOps (h64 : String → String) (ops : List CacheOp) (s : CacheState) : CacheState :=
  ops.foldl (applyOp h64) s

/-- Well-formedness of the in-memory root: unique retainer paths, each
`ref` duplicate-free, unique item keys, the disk listing duplicate-free,
and a blob exists on disk exactly for the keys present in `items`. -/
def WF (s : CacheState) : Prop :=
  (akeys s.retainers).Nodup ∧
  (∀ pr ∈ s.retainers, pr.2.Nodup) ∧
  (akeys s.items).Nodup ∧
  s.disk.Nodup ∧
  (∀ k ∈ s.disk, k ∈ akeys s.items) ∧
  (∀ k ∈ akeys s.items, k ∈ s.disk)

instance (s : CacheState) : Decidable (WF s) := by
  unfold WF; infer_instance

/-- The items/disk part of well-formedness, in the pointwise form the
preservation proofs use. -/
def ItemsDiskOk (s : CacheState) : Prop :=
  (akeys s.items).Nodup ∧ s.disk.Nodup ∧ (∀ x, x ∈ s.disk ↔ x ∈ akeys s.items)

/-! ## Spec-modelled GC with an ignore set (the `options` overload) -/

/-- Keys of a request list. -/
def keysOfRequests (h64 : String → String) (requests : List CacheRequest) : List String :=
  requests.map (createCacheKeyFromRequest h64)

/-- Spec §4.1 step 1 for the modelled overload: resolve `R` to keys,
dropping duplicates and keys not present in `items`. -/
def newCiWithItemsOf (h64 : String → String) (requests : List CacheRequest)
    (s : CacheState) : List String :=
  (newCiOf h64 requests).filter (fun k => (akeys s.items).contains k)

/-- Spec §4.1 step 2: `added = R \ R_old`. -/
def addedWithIgnoreOf (h64 : String → String) (requests : List CacheRequest)
    (retainerPath : String) (s : CacheState) : List String :=
  (newCiWithItemsOf h64 requests s).filter
    (fun k => ! ((alookup s.retainers retainerPath).getD []).contains k)

/-- Spec §4.1 step 2: `removed = (R_old \ R) \ ignored` — the released key
set of the modelled GC call. -/
def removedWithIgnoreOf (h64 : String → String) (requests : List CacheRequest)
    (retainerPath : String) (requestsToIgnore : List CacheRequest)
    (s : CacheState) : List String :=
  ((alookup s.retainers retainerPath).getD []).filter
    (fun k => ! (newCiWithItemsOf h64 requests s).contains k
      && ! (keysOfRequests h64 requestsToIgnore).contains k)

/-- Spec §4.1 step 4: the retainer's new `refs`, `(R_old ∪ added) \ removed`. -/
def refsAfterIgnoreOf (h64 : String → String) (requests : List CacheRequest)
    (retainerPath : String) (requestsToIgnore : List CacheRequest)
    (s : CacheState) : List String :=
  (((alookup s.retainers retainerPath).getD []) ++ addedWithIgnoreOf h64 requests retainerPath s).filter
    (fun k => ! (removedWithIgnoreOf h64 requests retainerPath requestsToIgnore s).contains k)

/-- Spec §4.1 step 4: the state after atomically replacing the retainer's
`refs` (deleting the record entirely when the result is empty) and marking
the root dirty. -/
def gcIgnoreMidState (h64 : String → String) (requests : List CacheRequest)
    (retainerPath : String) (requestsToIgnore : List CacheRequest)
    (s : CacheState) : CacheState :=
  { s with isMetadataDirty := true,
           retainers :=
             if (refsAfterIgnoreOf h64 requests retainerPath requestsToIgnore s).isEmpty
             then aerase s.retainers retainerPath
             else aset s.retainers retainerPath
               (refsAfterIgnoreOf h64 requests retainerPath requestsToIgnore s) }

/-- Modelled from the spec: the `options`-taking overload of
`CacheManager.updateRetainedCaches` invoked by `ProcessingPass.end` with
`{ requestsToIgnore }` lives in `cache/CacheManager.ts`, which is not among
the sources; only its callers are.  Following §4.1's GC algorithm: resolve
`R` to keys, dropping duplicates and keys not present in `items`;
`added = R \ R_old`; `removed = (R_old \ R) \ ignored` where `ignored` is
the caller-supplied exclusion set; if both are empty, no-op (step 3);
otherwise replace the retainer's `refs` with `(R_old ∪ added) \ removed`
(deleting the record when empty), recompute global retain counts, and
delete the blob and metadata entry of every removed key whose new count is
0 (step 5); mark the root dirty (step 6). -/
def updateRetainedCachesWithIgnore (h64 : String → String)
    (requests : List CacheRequest) (retainerPath : String)
    (requestsToIgnore : List CacheRequest) (s : CacheState) : CacheState :=
  if (addedWithIgnoreOf h64 requests retainerPath s).isEmpty
      ∧ (removedWithIgnoreOf h64 requests retainerPath requestsToIgnore s).isEmpty then s
  else
    gcDeleteRemoved
      (retainCount (gcIgnoreMidState h64 requests retainerPath requestsToIgnore s) none)
      (removedWithIgnoreOf h64 requests retainerPath requestsToIgnore s)
      (gcIgnoreMidState h64 requests retainerPath requestsToIgnore s)

/-! ## Download coordinator (`CacheManager.download`, `handleImage`) -/

/-- `Url.normalizeHeaders`: lower-case and trim non-empty header names,
later duplicates overwriting earlier ones. -/
def normalizeHeaders (headers : List (String × String)) : List (String × String) :=
  headers.foldl
    (fun acc kv => if kv.1.length = 0 then acc else aset acc (jsTrim kv.1.toLower) kv.2)
    []

/-- `Url.RESPONSE_HEADER_LOWERCASE.contentType`. -/
def contentTypeHeaderName : String := "Content-Type".toLower

/-- `Url.RESPONSE_HEADER_LOWERCASE.cacheControl`. -/
def cacheControlHeaderName : String := "Cache-Control".toLower

/-- `Url.CACHE_CONTROL_LOWERCASE.noStore`. -/
def cacheControlNoStore : String := "no-store"

/-- The response `requestUrl` produced for the request. -/
structure RequestUrlResponse where
  status : Nat
  headers : List (String × String)
  arrayBuffer : List Nat
  deriving DecidableEq, Repr

/-- Outcome of the external `imageSize` parser on the downloaded bytes:
either the parsed metadata, a `TypeError` (unsupported image type) or some
other reading error. -/
inductive ImageSizeOutcome where
  | ok (meta : CacheMetadataImage)
  | typeErr (message : String)
  | otherErr
  deriving DecidableEq, Repr

/-- The cause recorded inside a `CacheFetchError` when it wraps an
underlying exception. -/
inductive UnderlyingError where
  | generic
  | internetDisconnected
  | nameNotResolved
  deriving DecidableEq, Repr

/-- The `CacheError` hierarchy (`CacheError`, `CacheTypeError`,
`CacheNotFoundError`, `CacheFetchError`). -/
inductive CacheErr where
  | cacheError (cacheKey : String) (message : String)
  | typeError (message : String)
  | notFound (cacheKey : String)
  | fetchError (cacheKey : String) (underlying : Option UnderlyingError)
      (sourceUrl : String) (statusCode : Option Nat)
  deriving DecidableEq, Repr

/-- `CacheFetchError.isRetryable` (and the `undefined`-is-falsy reading of
the flag on the other error classes, which do not define it): with an
underlying exception it is retryable only for a disconnected-internet
error; without one, `!statusCode || (statusCode >= 500 && statusCode < 600)`. -/
def cacheErrIsRetryable : CacheErr → Bool
  | .fetchError _ (some u) _ _ => u = UnderlyingError.internetDisconnected
  | .fetchError _ none _ st =>
      match st with
      | none => true
      | some n => n = 0 ∨ (500 ≤ n ∧ n < 600)
  | _ => false

/-- `FileInfo` (filename and extension extracted from the source URL). -/
structure FileInfo where
  filename : String
  extension : String
  deriving DecidableEq, Repr

/-- The external world of one `download` call: the network response, the
`imageSize` outcome on its bytes, whether the blob write and the metadata
save succeed, and the timestamp. -/
structure DownloadEnv where
  response : RequestUrlResponse
  imageSizeOutcome : ImageSizeOutcome
  writeBinaryOk : Bool
  saveMetadataOk : Bool
  now : String
  deriving DecidableEq, Repr

/-- `CacheManager.handleImage`: convert the `imageSize` outcome, turning a
`TypeError` into `CacheTypeError` and any other failure into a plain
`CacheError("", "Failed to read image.")`. -/
def handleImage (o : ImageSizeOutcome) : Except CacheErr CacheMetadataImage :=
  match o with
  | .ok meta => .ok meta
  | .typeErr m => .error (.typeError m)
  | .otherErr => .error (.cacheError "" "Failed to read image.")

/-- What `download` hands back (projected from `CacheResult`): the metadata
of the produced item, or the error; `fileExists` as reported. -/
structure DownloadResult where
  item : Option CacheMetadata
  error : Option CacheErr
  fileExists : Option Bool
  deriving DecidableEq, Repr

/-- The normalized `Cache-Control` header of the environment's response. -/
def responseCacheControl (env : DownloadEnv) : Option String :=
  alookup (normalizeHeaders env.response.headers) cacheControlHeaderName

/-- The normalized `Content-Type` header of the environment's response. -/
def responseContentType (env : DownloadEnv) : Option String :=
  alookup (normalizeHeaders env.response.headers) contentTypeHeaderName

/-- The state after `vault.adapter.writeBinary(cacheItemPath, …)` succeeds:
the blob for the cache key is on disk. -/
def downloadWriteState (h64 : String → String) (_env : DownloadEnv) (s : CacheState)
    (request : CacheRequest) : CacheState :=
  { s with disk :=
      if s.disk.contains (createCacheKeyFromRequest h64 request) then s.disk
      else s.disk ++ [createCacheKeyFromRequest h64 request] }

/-- The `metadata` record `download` builds for the response. -/
def downloadMetadata (hbin : List Nat → String) (env : DownloadEnv)
    (request : CacheRequest) (fileInfo : FileInfo)
    (imageMetadata : CacheMetadataImage) : CacheMetadata :=
  { ty := .IMAGE,
    ti := { d := env.now, l := env.now, cc := responseCacheControl env },
    f := { s := request.source, n := fileInfo.filename, e := fileInfo.extension,
           sz := env.response.arrayBuffer.length, ct := responseContentType env,
           ch := hbin env.response.arrayBuffer },
    i := some imageMetadata }

/-- The state after `this.metadataRoot.items[cacheKey] = metadata`. -/
def downloadCommitState (h64 : String → String) (hbin : List Nat → String)
    (env : DownloadEnv) (s : CacheState) (request : CacheRequest)
    (fileInfo : FileInfo) (imageMetadata : CacheMetadataImage) : CacheState :=
  { downloadWriteState h64 env s request with
      items := aset (downloadWriteState h64 env s request).items
        (createCacheKeyFromRequest h64 request)
        (downloadMetadata hbin env request fileInfo imageMetadata) }

/-- The rollback after a failed `saveMetadata`: `delete this.cache[cacheKey]`
and remove the blob. -/
def downloadRollbackState (h64 : String → String) (hbin : List Nat → String)
    (env : DownloadEnv) (s : CacheState) (request : CacheRequest)
    (fileInfo : FileInfo) (imageMetadata : CacheMetadataImage) : CacheState :=
  { downloadCommitState h64 hbin env s request fileInfo imageMetadata with
      items := aerase (downloadCommitState h64 hbin env s request fileInfo imageMetadata).items
        (createCacheKeyFromRequest h64 request),
      disk := (downloadCommitState h64 hbin env s request fileInfo imageMetadata).disk.erase
        (createCacheKeyFromRequest h64 request) }

/-- `CacheManager.download(request, fileInfo)`:
check `Cache-Control: no-store` (note the source passes the message and
key to `CacheError` in swapped positions), then the HTTP status, then
validate the payload via `handleImage` before any write; write the blob
(on write failure, attempt removal and rethrow — the storage error is
wrapped as a non-retryable `CacheFetchError`); insert the metadata entry
and persist (`saveMetadata` clears the dirty flag); if persisting fails,
roll back the entry and the blob and rethrow.  `h64` hashes keys, `hbin`
models `hashBinary` on the bytes. -/
def download (h64 : String → String) (hbin : List Nat → String) (env : DownloadEnv)
    (s : CacheState) (request : CacheRequest) (fileInfo : FileInfo) :
    DownloadResult × CacheState :=
  let sourceUrl := request.source
  let cacheKey := createCacheKeyFromRequest h64 request
  if responseCacheControl env = some cacheControlNoStore then
    ({ item := none,
       error := some (.cacheError ("Caching not allowed on " ++ sourceUrl ++ ".") cacheKey),
       fileExists := none }, s)
  else if 400 ≤ env.response.status then
    ({ item := none,
       error := some (.fetchError cacheKey none sourceUrl (some env.response.status)),
       fileExists := none }, s)
  else
    match handleImage env.imageSizeOutcome with
    | .error e => ({ item := none, error := some e, fileExists := none }, s)
    | .ok imageMetadata =>
      if ¬ env.writeBinaryOk then
        ({ item := none,
           error := some (.fetchError cacheKey (some .generic) sourceUrl none),
           fileExists := none }, s)
      else if ¬ env.saveMetadataOk then
        ({ item := none,
           error := some (.fetchError cacheKey (some .generic) sourceUrl none),
           fileExists := none },
         downloadRollbackState h64 hbin env s request fileInfo imageMetadata)
      else
        ({ item := some (downloadMetadata hbin env request fileInfo imageMetadata),
           error := none, fileExists := some true },
         { downloadCommitState h64 hbin env s request fileInfo imageMetadata with
             isMetadataDirty := false })

/-! ## Element cache states (`HtmlAssistant.ts`) -/

/-- `HTMLElementCacheState`. -/
inductive HTMLElementCacheState where
  | ORIGINAL
  | ORIGINAL_SRC_REMOVED
  | REQUESTING
  | REQUESTING_DOWNLOADING
  | CACHE_SUCCEEDED
  | CACHE_FAILED
  | INVALID
  deriving DecidableEq, Repr

/-- `HtmlAssistant.isCacheStateEqual(state, ...states)`. -/
def isCacheStateEqual (state : HTMLElementCacheState)
    (states : List HTMLElementCacheState) : Bool :=
  states.any (fun stateToCheck => stateToCheck = state)

/-- `Logic.filterIrrelevantCacheStates` (`ProcessingPass.ts`): keep an
element unless its state is `REQUESTING`, `REQUESTING_DOWNLOADING`,
`CACHE_SUCCEEDED` or `INVALID`. -/
def filterIrrelevantCacheStates (state : HTMLElementCacheState) : Bool :=
  ¬ isCacheStateEqual state
      [HTMLElementCacheState.REQUESTING,
       HTMLElementCacheState.REQUESTING_DOWNLOADING,
       HTMLElementCacheState.CACHE_SUCCEEDED,
       HTMLElementCacheState.INVALID]

/-- The per-element body of `HtmlAssistant.cancelImageLoading`: with no
`src` or in state `ORIGINAL_SRC_REMOVED` leave the element alone,
otherwise stash the source and move to `ORIGINAL_SRC_REMOVED`. -/
def cancelImageLoad (hasSrc : Bool) (state : HTMLElementCacheState) :
    HTMLElementCacheState :=
  if ¬ hasSrc then state
  else if state = HTMLElementCacheState.ORIGINAL_SRC_REMOVED then state
  else HTMLElementCacheState.ORIGINAL_SRC_REMOVED

/-- The entry filter of `ComeDownPlugin.requestCache` (main.ts:818): keep
only `ORIGINAL_SRC_REMOVED` and `CACHE_FAILED` elements. -/
def requestCacheEntryFilter (state : HTMLElementCacheState) : Bool :=
  isCacheStateEqual state
    [HTMLElementCacheState.ORIGINAL_SRC_REMOVED, HTMLElementCacheState.CACHE_FAILED]

/-- One pass's selection pipeline for a placeholder: the pass filter
(`filterIrrelevantCacheStates`), then cancellation of native loading
(`cancelImageLoading`), then `requestCache`'s own state filter.  `true`
means the placeholder is selected for cache requesting in this pass. -/
def passSelectsForRequest (hasSrc : Bool) (state : HTMLElementCacheState) : Bool :=
  if filterIrrelevantCacheStates state then
    requestCacheEntryFilter (cancelImageLoad hasSrc state)
  else false

/-! ## Request grouping (`groupRequests` in `ComeDownPlugin.requestCache`) -/

/-- `CacheManager.validateRequest`: reject an empty source and a
non-external one.  The platform's URL parser behind `Url.isExternal` is the
parameter `isExternal`.  `none` means the request is valid. -/
def validateRequest (isExternal : String → Bool) (source : String) : Option String :=
  if source.length = 0 then some "The cache key is not set."
  else if ¬ isExternal source then some "The cache key must be an external Url."
  else none

/-- `CacheManager.createRequest(src, requesterPath)` (the helper lives in
the missing `cache/CacheManager.ts`; it is the record constructor, exactly
as the inline construction at main.ts:465 of the previous version). -/
def createRequest (src : String) (requesterPath : String) : CacheRequest :=
  { source := src, requesterPath := requesterPath }

/-- A placeholder element as `groupRequests` sees it: the result of
`HtmlAssistant.originalSrc(el, true)` and of the `alt` attribute probe. -/
structure ImgElement where
  originalSrc : Option String
  alt : Option String
  deriving DecidableEq, Repr

/-- A `RequestGroup` (main.ts): the group's request, the indices of the
image elements sharing it, their saved `alt` values, and whether the cache
file was found. -/
structure RequestGroup where
  request : CacheRequest
  imageElements : List Nat
  altAttributeValues : List String
  cacheFileFound : Bool
  deriving DecidableEq, Repr

/-- One step of `groupRequests`' `forEach` for the element at index `i`
(the `setCacheState(REQUESTING)` DOM mutation is tracked by the invalid
list: elements without a source or failing validation are marked
`INVALID` instead).  `groupedByRequest` is the accumulated object keyed by
cache key; new groups are appended, existing ones extended. -/
def groupRequestsStep (h64 : String → String) (isExternal : String → Bool)
    (requesterPath : String)
    (acc : List (String × RequestGroup) × List Nat) (i : Nat) (el : ImgElement) :
    List (String × RequestGroup) × List Nat :=
  match el.originalSrc with
  | none => (acc.1, acc.2 ++ [i])
  | some src =>
    let key := createCacheKeyFromOriginalSrc h64 src
    let alt := el.alt.getD ""
    match alookup acc.1 key with
    | some group =>
        (aset acc.1 key
          { group with imageElements := group.imageElements ++ [i],
                       altAttributeValues := group.altAttributeValues ++ [alt] },
         acc.2)
    | none =>
      match validateRequest isExternal src with
      | some _ => (acc.1, acc.2 ++ [i])
      | none =>
          (acc.1 ++ [(key,
            { request := createRequest src requesterPath,
              imageElements := [i], altAttributeValues := [alt],
              cacheFileFound := false })],
           acc.2)

def groupRequestsAux (h64 : String → String) (isExternal : String → Bool)
    (requesterPath : String) :
    List ImgElement → Nat → List (String × RequestGroup) × List Nat →
    List (String × RequestGroup) × List Nat
  | [], _, acc => acc
  | el :: rest, i, acc =>
      groupRequestsAux h64 isExternal requesterPath rest (i + 1)
        (groupRequestsStep h64 isExternal requesterPath acc i el)

/-- `groupRequests(imageElements, cacheManager, processingPass)`: group the
elements by the cache key of their original source; elements without a
source, and elements whose source fails validation when no group exists
yet for their key, are marked invalid.  Returns the keyed groups in
insertion order together with the invalid-marked indices. -/
def groupRequests (h64 : String → String) (isExternal : String → Bool)
    (requesterPath : String) (imageElements : List ImgElement) :
    List (String × RequestGroup) × List Nat :=
  groupRequestsAux h64 isExternal requesterPath imageElements 0 ([], [])

/-- The number of store calls `requestCache` issues for cache key `k`: the
`for` loop at main.ts:830 performs exactly one `existingCache` call per
group, and the `forEach` at main.ts:854 at most one `getCache` call per
group, so the count of groups keyed `k` counts the lookup/download calls
for `k`. -/
def storeCallsForKey (groups : List (String × RequestGroup)) (k : String) : Nat :=
  (groups.map Prod.fst).count k

/-- The uniform state the `getCache` callback in `requestCache` applies to
every element of a group (`none` = the element's state is left as is,
which happens when `loadImages` reports the blob object URL failed):
an item whose file exists loads into all elements (`CACHE_SUCCEEDED`), an
item without its file marks all `CACHE_FAILED`, no item marks all
`INVALID`. -/
def downloadCallbackState (hasItem : Bool) (fileExists : Option Bool)
    (loadOk : Bool) : Option HTMLElementCacheState :=
  if hasItem then
    if fileExists = some true then
      if loadOk then some HTMLElementCacheState.CACHE_SUCCEEDED else none
    else some HTMLElementCacheState.CACHE_FAILED
  else some HTMLElementCacheState.INVALID

/-- The fan-out of one group's single result: every element index of the
group receives the same callback outcome (`preState` is the uniform
in-flight state the group's elements were all put into beforehand). -/
def fanOutGroup (g : RequestGroup) (hasItem : Bool) (fileExists : Option Bool)
    (loadOk : Bool) (preState : HTMLElementCacheState) :
    List (Nat × HTMLElementCacheState) :=
  g.imageElements.map
    (fun i => (i, (downloadCallbackState hasItem fileExists loadOk).getD preState))

/-! # Lemmas and claim theorems -/

/-! ## `trim` facts -/

theorem dropWhile_dropWhile_self {α : Type} (p : α → Bool) (l : List α) :
    (l.dropWhile p).dropWhile p = l.dropWhile p := by
  induction l with
  | nil => rfl
  | cons a t ih =>
      by_cases h : p a
      · simp [List.dropWhile_cons, h, ih]
      · simp [List.dropWhile_cons, h]

theorem head_false_of_dropWhile_fix {α : Type} {p : α → Bool} {a : α} {t : List α}
    (h : List.dropWhile p (a :: t) = a :: t) : p a = false := by
  have := (List.dropWhile_eq_self_iff.mp h) (by simp)
  simpa using this

theorem dropWhile_append_singleton {α : Type} (p : α → Bool) (xs : List α) (a : α) :
    List.dropWhile p (xs ++ [a]) =
      if (xs.dropWhile p).isEmpty then (if p a then [] else [a])
      else xs.dropWhile p ++ [a] := by
  induction xs with
  | nil => simp [List.dropWhile_cons, List.dropWhile_nil]
  | cons x xs ih =>
      by_cases h : p x
      · simpa [List.dropWhile_cons, h] using ih
      · simp [List.dropWhile_cons, h]

theorem head_dropRightWhile {α : Type} (p : α → Bool) (a : α) (t : List α) :
    dropRightWhile p (a :: t) = [] ∨
      ∃ rest, dropRightWhile p (a :: t) = a :: rest := by
  unfold dropRightWhile
  rw [List.reverse_cons, dropWhile_append_singleton]
  by_cases h : (t.reverse.dropWhile p).isEmpty
  · rw [if_pos h]
    by_cases hp : p a
    · left; simp [hp]
    · right; exact ⟨[], by simp [hp]⟩
  · rw [if_neg h]
    right
    exact ⟨(t.reverse.dropWhile p).reverse, by simp⟩

theorem dropWhile_dropRightWhile_of_fix {α : Type} {p : α → Bool} {l : List α}
    (h : l.dropWhile p = l) :
    (dropRightWhile p l).dropWhile p = dropRightWhile p l := by
  cases l with
  | nil => rfl
  | cons a t =>
      have ha : p a = false := head_false_of_dropWhile_fix h
      rcases head_dropRightWhile p a t with h0 | ⟨rest, hr⟩
      · rw [h0]; rfl
      · rw [hr, List.dropWhile_cons, if_neg (by simp [ha])]

theorem dropRightWhile_dropRightWhile {α : Type} (p : α → Bool) (l : List α) :
    dropRightWhile p (dropRightWhile p l) = dropRightWhile p l := by
  unfold dropRightWhile
  rw [List.reverse_reverse, dropWhile_dropWhile_self]

theorem jsTrimList_idem (l : List Char) : jsTrimList (jsTrimList l) = jsTrimList l := by
  unfold jsTrimList
  rw [dropWhile_dropRightWhile_of_fix (dropWhile_dropWhile_self _ l),
    dropRightWhile_dropRightWhile]

theorem jsTrim_idem (s : String) : jsTrim (jsTrim s) = jsTrim s := by
  unfold jsTrim
  rw [show (String.mk (jsTrimList s.data)).data = jsTrimList s.data from rfl,
    jsTrimList_idem]

/-- C10: cache-key derivation trims the source before hashing, so for every
source string `s`, `createCacheKeyFromOriginalSrc s` equals
`createCacheKeyFromOriginalSrc (s.trim())`: requests differing only in
leading/trailing whitespace share one cache key and hence one cache entry,
blob file and retain bookkeeping. -/
theorem createCacheKey_trim_invariant (h64 : String → String) (s : String) :
    createCacheKeyFromOriginalSrc h64 s = createCacheKeyFromOriginalSrc h64 (jsTrim s) := by
  unfold createCacheKeyFromOriginalSrc hashString
  rw [jsTrim_idem]

/-! ## C9: pass selection by element state -/

/-- C9: a pass selects for cache requesting exactly the placeholders in
state `ORIGINAL`, `ORIGINAL_SRC_REMOVED` or `CACHE_FAILED` (an `ORIGINAL`
element with a source is cancelled into `ORIGINAL_SRC_REMOVED` on the way);
`REQUESTING`, `REQUESTING_DOWNLOADING`, `CACHE_SUCCEEDED` and `INVALID`
placeholders are filtered out and never selected in that pass.  The first
equation covers placeholders carrying a source attribute, the second those
without one (whose `ORIGINAL` state cannot be cancelled and is dropped by
`requestCache`'s own filter). -/
theorem passSelection_states (state : HTMLElementCacheState) :
    (passSelectsForRequest true state =
      isCacheStateEqual state
        [HTMLElementCacheState.ORIGINAL, HTMLElementCacheState.ORIGINAL_SRC_REMOVED,
         HTMLElementCacheState.CACHE_FAILED])
    ∧ (passSelectsForRequest false state =
      isCacheStateEqual state
        [HTMLElementCacheState.ORIGINAL_SRC_REMOVED, HTMLElementCacheState.CACHE_FAILED]) := by
  cases state <;> exact ⟨rfl, rfl⟩

/-! ## C4: dangling references are kept, not dropped -/

/-- C4 (failing input): on an empty store, retaining the single request
`"k1"` from `"note.md"` stores the key in the retainer's `ref` even though
`items` has no such key — `updateRetainedCaches` deduplicates but does not
drop keys missing from `items`.  Consequently a second pass that releases
the key computes a `removedReferences` containing it while the retain-count
record does not register it (`alookup … = none`, JavaScript `undefined`),
the exact situation `updateRetainedCaches`'s own
`console.assert(cacheKeyRetainCount !== undefined, …)` declares impossible. -/
theorem updateRetainedCaches_keeps_dangling_key :
    (updateRetainedCaches (fun x => x)
        [{ source := "k1", requesterPath := "note.md" }] "note.md"
        { retainers := [], items := [], disk := [], isMetadataDirty := false }).retainers
        = [("note.md", ["k1"])]
    ∧ (updateRetainedCaches (fun x => x)
        [{ source := "k1", requesterPath := "note.md" }] "note.md"
        { retainers := [], items := [], disk := [], isMetadataDirty := false }).items = []
    ∧ removedReferencesOf (fun x => x) [] "note.md"
        (updateRetainedCaches (fun x => x)
          [{ source := "k1", requesterPath := "note.md" }] "note.md"
          { retainers := [], items := [], disk := [], isMetadataDirty := false })
        = ["k1"]
    ∧ alookup
        (retainCount
          (updateRetainedCaches (fun x => x)
            [{ source := "k1", requesterPath := "note.md" }] "note.md"
            { retainers := [], items := [], disk := [], isMetadataDirty := false })
          none) "k1" = none := by
  decide


/-! ## Association-list lemmas -/

theorem akeys_nil {α : Type} : akeys ([] : List (String × α)) = [] := rfl

theorem akeys_cons {α : Type} (pr : String × α) (t : List (String × α)) :
    akeys (pr :: t) = pr.1 :: akeys t := rfl

theorem alookup_aset_self {α : Type} (l : List (String × α)) (k : String) (v : α) :
    alookup (aset l k v) k = some v := by
  induction l with
  | nil => simp [aset, alookup]
  | cons pr t ih =>
      by_cases h : pr.1 = k
      · simp [aset, alookup, h]
      · simp [aset, alookup, h, ih]

theorem alookup_aset_ne {α : Type} (l : List (String × α)) (k k' : String) (v : α)
    (h : k' ≠ k) : alookup (aset l k v) k' = alookup l k' := by
  induction l with
  | nil => simp [aset, alookup, Ne.symm h]
  | cons pr t ih =>
      by_cases hh : pr.1 = k
      · simp [aset, alookup, hh, Ne.symm h, h]
      · by_cases hk' : pr.1 = k'
        · simp [aset, alookup, hh, hk', h]
        · simp [aset, alookup, hh, hk', ih]

theorem alookup_eq_none_iff {α : Type} (l : List (String × α)) (k : String) :
    alookup l k = none ↔ k ∉ akeys l := by
  induction l with
  | nil => simp [alookup, akeys_nil]
  | cons pr t ih =>
      by_cases h : pr.1 = k
      · rw [show alookup (pr :: t) k = some pr.2 by simp [alookup, h]]
        rw [akeys_cons]
        simp [h]
      · rw [show alookup (pr :: t) k = alookup t k by simp [alookup, h]]
        rw [ih, akeys_cons]
        simp [Ne.symm h]

theorem alookup_isSome_iff {α : Type} (l : List (String × α)) (k : String) :
    (alookup l k).isSome ↔ k ∈ akeys l := by
  rcases h : alookup l k with _ | v
  · simp [(alookup_eq_none_iff l k).mp h]
  · have h2 : ¬ alookup l k = none := by simp [h]
    rw [alookup_eq_none_iff] at h2
    simp [not_not.mp h2]

theorem mem_akeys_of_alookup {α : Type} {l : List (String × α)} {k : String} {v : α}
    (h : alookup l k = some v) : k ∈ akeys l := by
  rw [← alookup_isSome_iff, h]
  rfl

theorem akeys_aset_mem {α : Type} (l : List (String × α)) (k : String) (v : α)
    (h : k ∈ akeys l) : akeys (aset l k v) = akeys l := by
  induction l with
  | nil => simp [akeys_nil] at h
  | cons pr t ih =>
      by_cases hh : pr.1 = k
      · rw [show aset (pr :: t) k v = (pr.1, v) :: t by simp [aset, hh]]
        rw [akeys_cons, akeys_cons]
      · have hm : k ∈ akeys t := by
          rcases List.mem_cons.mp (by rw [← akeys_cons]; exact h) with h1 | h2
          · exact absurd h1.symm hh
          · exact h2
        rw [show aset (pr :: t) k v = pr :: aset t k v by simp [aset, hh]]
        rw [akeys_cons, akeys_cons, ih hm]

theorem akeys_aset_not_mem {α : Type} (l : List (String × α)) (k : String) (v : α)
    (h : k ∉ akeys l) : akeys (aset l k v) = akeys l ++ [k] := by
  induction l with
  | nil => simp [aset, akeys_nil, akeys_cons]
  | cons pr t ih =>
      have h1 : ¬ pr.1 = k := by
        intro hx
        exact h (by rw [akeys_cons, hx]; exact List.mem_cons_self k _)
      have h2 : k ∉ akeys t := by
        intro hx
        exact h (by rw [akeys_cons]; exact List.mem_cons_of_mem _ hx)
      rw [show aset (pr :: t) k v = pr :: aset t k v by simp [aset, h1]]
      rw [akeys_cons, akeys_cons, ih h2]
      rfl

theorem nodup_akeys_aset {α : Type} (l : List (String × α)) (k : String) (v : α)
    (h : (akeys l).Nodup) : (akeys (aset l k v)).Nodup := by
  by_cases hm : k ∈ akeys l
  · rw [akeys_aset_mem l k v hm]; exact h
  · rw [akeys_aset_not_mem l k v hm]
    simpa [List.nodup_append] using ⟨h, fun hx => hm hx⟩

theorem akeys_aerase {α : Type} (l : List (String × α)) (k : String) :
    akeys (aerase l k) = (akeys l).erase k := by
  induction l with
  | nil => simp [aerase, akeys_nil]
  | cons pr t ih =>
      by_cases h : pr.1 = k
      · rw [show aerase (pr :: t) k = t by simp [aerase, h]]
        rw [akeys_cons, h, List.erase_cons_head]
      · rw [show aerase (pr :: t) k = pr :: aerase t k by simp [aerase, h]]
        rw [akeys_cons, akeys_cons, ih, List.erase_cons_tail]
        simp [h]

theorem mem_aset_elim {α : Type} {l : List (String × α)} {k : String} {v : α}
    {pr : String × α} (h : pr ∈ aset l k v) : pr = (k, v) ∨ pr ∈ l := by
  induction l with
  | nil => simpa [aset] using h
  | cons q t ih =>
      by_cases hh : q.1 = k
      · rw [show aset (q :: t) k v = (q.1, v) :: t by simp [aset, hh]] at h
        rcases List.mem_cons.mp h with h1 | h2
        · left; rw [h1, hh]
        · right; exact List.mem_cons_of_mem _ h2
      · rw [show aset (q :: t) k v = q :: aset t k v by simp [aset, hh]] at h
        rcases List.mem_cons.mp h with h1 | h2
        · right; rw [h1]; exact List.mem_cons_self _ _
        · rcases ih h2 with h3 | h4
          · left; exact h3
          · right; exact List.mem_cons_of_mem _ h4

theorem mem_aerase_elim {α : Type} {l : List (String × α)} {k : String}
    {pr : String × α} (h : pr ∈ aerase l k) : pr ∈ l := by
  induction l with
  | nil => simp [aerase] at h
  | cons q t ih =>
      by_cases hh : q.1 = k
      · rw [show aerase (q :: t) k = t by simp [aerase, hh]] at h
        exact List.mem_cons_of_mem _ h
      · rw [show aerase (q :: t) k = q :: aerase t k by simp [aerase, hh]] at h
        rcases List.mem_cons.mp h with h1 | h2
        · rw [h1]; exact List.mem_cons_self _ _
        · exact List.mem_cons_of_mem _ (ih h2)

theorem mem_aerase_aset_elim {α : Type} {l : List (String × α)} {k : String} {v : α}
    {pr : String × α} (h : pr ∈ aerase (aset l k v) k) : pr ∈ l := by
  induction l with
  | nil => simp [aset, aerase] at h
  | cons q t ih =>
      by_cases hh : q.1 = k
      · rw [show aset (q :: t) k v = (q.1, v) :: t by simp [aset, hh]] at h
        rw [show aerase ((q.1, v) :: t) k = t by simp [aerase, hh]] at h
        exact List.mem_cons_of_mem _ h
      · rw [show aset (q :: t) k v = q :: aset t k v by simp [aset, hh]] at h
        rw [show aerase (q :: aset t k v) k = q :: aerase (aset t k v) k by
          simp [aerase, hh]] at h
        rcases List.mem_cons.mp h with h1 | h2
        · rw [h1]; exact List.mem_cons_self _ _
        · exact List.mem_cons_of_mem _ (ih h2)

theorem alookup_aerase_ne {α : Type} (l : List (String × α)) (k k' : String)
    (h : k' ≠ k) : alookup (aerase l k) k' = alookup l k' := by
  induction l with
  | nil => simp [aerase]
  | cons q t ih =>
      by_cases hh : q.1 = k
      · rw [show aerase (q :: t) k = t by simp [aerase, hh]]
        rw [show alookup (q :: t) k' = alookup t k' by
          simp [alookup, show ¬ q.1 = k' from fun hx => h (by rw [← hx, hh])]]
      · by_cases hk' : q.1 = k'
        · rw [show aerase (q :: t) k = q :: aerase t k by simp [aerase, hh]]
          simp [alookup, hk']
        · rw [show aerase (q :: t) k = q :: aerase t k by simp [aerase, hh]]
          simp [alookup, hk', ih]

theorem alookup_aerase_self_of_nodup {α : Type} (l : List (String × α)) (k : String)
    (h : (akeys l).Nodup) : alookup (aerase l k) k = none := by
  rw [alookup_eq_none_iff, akeys_aerase]
  exact List.Nodup.not_mem_erase h

/-! ## Structural facts about the GC operations -/

theorem removeCacheItem_retainers (s : CacheState) (k : String) :
    (removeCacheItem s k).retainers = s.retainers := by
  unfold removeCacheItem
  split <;> rfl

theorem removeCacheItem_isMetadataDirty (s : CacheState) (k : String) :
    (removeCacheItem s k).isMetadataDirty = s.isMetadataDirty := by
  unfold removeCacheItem
  split <;> rfl

theorem gcDeleteRemoved_retainers (rc : List (String × Int)) (removed : List String)
    (s : CacheState) : (gcDeleteRemoved rc removed s).retainers = s.retainers := by
  induction removed generalizing s with
  | nil => rfl
  | cons k t ih =>
      unfold gcDeleteRemoved at ih ⊢
      simp only [List.foldl_cons]
      rw [ih]
      split <;> simp [removeCacheItem_retainers]

theorem gcDeleteRemoved_isMetadataDirty (rc : List (String × Int))
    (removed : List String) (s : CacheState) :
    (gcDeleteRemoved rc removed s).isMetadataDirty = s.isMetadataDirty := by
  induction removed generalizing s with
  | nil => rfl
  | cons k t ih =>
      unfold gcDeleteRemoved at ih ⊢
      simp only [List.foldl_cons]
      rw [ih]
      split <;> simp [removeCacheItem_isMetadataDirty]

theorem saveMetadataIfDirty_snd (t : CacheState) :
    (saveMetadataIfDirty t).2 = { t with isMetadataDirty := false } := by
  unfold saveMetadataIfDirty
  by_cases h : t.isMetadataDirty
  · simp [h]
  · simp only [h]
    cases t
    simp_all

theorem filter_not_contains_self (l : List String) :
    l.filter (fun k => ! l.contains k) = [] := by
  rw [List.filter_eq_nil_iff]
  intro a ha
  simp [ha]

/-- How `updateRetainedCaches` leaves the retainer table: either the diff
was empty and the state is returned untouched, or the retainer's entry is
set to `newCi` (and erased again when `newCi` is empty). -/
theorem updateRetainedCaches_cases (h64 : String → String)
    (requests : List CacheRequest) (p : String) (s : CacheState) :
    (addedReferencesOf h64 requests p s = [] ∧ removedReferencesOf h64 requests p s = [] ∧
      updateRetainedCaches h64 requests p s = s)
    ∨ (updateRetainedCaches h64 requests p s).retainers =
        (if (newCiOf h64 requests).isEmpty
         then aerase (aset s.retainers p (newCiOf h64 requests)) p
         else aset s.retainers p (newCiOf h64 requests)) := by
  by_cases hc : (addedReferencesOf h64 requests p s).isEmpty
      ∧ (removedReferencesOf h64 requests p s).isEmpty
  · left
    refine ⟨List.isEmpty_iff.mp hc.1, List.isEmpty_iff.mp hc.2, ?_⟩
    unfold updateRetainedCaches
    simp [hc.1, hc.2]
  · right
    unfold updateRetainedCaches
    rw [if_neg hc]
    by_cases hne : (newCiOf h64 requests).isEmpty
    · simp only [hne, if_pos, if_true]
      unfold gcAfterDelete gcMidState
      rw [gcDeleteRemoved_retainers]
    · simp only [hne, if_false, Bool.false_eq_true]
      unfold gcAfterDelete gcMidState
      rw [gcDeleteRemoved_retainers]

theorem alookup_aerase_aset_self {α : Type} (l : List (String × α)) (p : String)
    (v : α) (h : (akeys l).Nodup) : alookup (aerase (aset l p v) p) p = none :=
  alookup_aerase_self_of_nodup _ _ (nodup_akeys_aset l p v h)

/-- A call whose diff is empty returns the state unchanged. -/
theorem updateRetainedCaches_eq_of_empty_diff (h64 : String → String)
    (requests : List CacheRequest) (p : String) (t : CacheState)
    (ha : addedReferencesOf h64 requests p t = [])
    (hr : removedReferencesOf h64 requests p t = []) :
    updateRetainedCaches h64 requests p t = t := by
  unfold updateRetainedCaches
  simp [ha, hr]

/-! ## C3: GC idempotence -/

/-- C3: after `updateRetainedCaches(R, P)` followed by its paired
`saveMetadataIfDirty`, an immediately repeated `updateRetainedCaches` with
the same `R` and `P` is a complete no-op — the state (retainers, items,
disk, dirty flag) is returned unchanged and the dirty flag stays unset —
and therefore the repeated `saveMetadataIfDirty` performs no second
persistence write. -/
theorem updateRetainedCaches_idempotent (h64 : String → String)
    (requests : List CacheRequest) (retainerPath : String) (s : CacheState)
    (hnd : (akeys s.retainers).Nodup) :
    updateRetainedCaches h64 requests retainerPath
        (saveMetadataIfDirty (updateRetainedCaches h64 requests retainerPath s)).2
      = (saveMetadataIfDirty (updateRetainedCaches h64 requests retainerPath s)).2
    ∧ (saveMetadataIfDirty
        (updateRetainedCaches h64 requests retainerPath
          (saveMetadataIfDirty (updateRetainedCaches h64 requests retainerPath s)).2)).1
      = false := by
  set u := updateRetainedCaches h64 requests retainerPath s with hu
  set s1 := (saveMetadataIfDirty u).2 with hs1
  have hs1' : s1 = { u with isMetadataDirty := false } := by
    rw [hs1, saveMetadataIfDirty_snd]
  have hret : s1.retainers = u.retainers := by rw [hs1']
  have hdirty : s1.isMetadataDirty = false := by rw [hs1']
  have hnoop : updateRetainedCaches h64 requests retainerPath s1 = s1 := by
    rcases updateRetainedCaches_cases h64 requests retainerPath s with ⟨ha, hr, heq⟩ | hcase
    · -- first call was already a no-op: the diff is recomputed identically
      have hsame : s1.retainers = s.retainers := by rw [hret, hu, heq]
      apply updateRetainedCaches_eq_of_empty_diff
      · rw [show addedReferencesOf h64 requests retainerPath s1
            = addedReferencesOf h64 requests retainerPath s by
          unfold addedReferencesOf; rw [hsame]]
        exact ha
      · rw [show removedReferencesOf h64 requests retainerPath s1
            = removedReferencesOf h64 requests retainerPath s by
          unfold removedReferencesOf; rw [hsame]]
        exact hr
    · -- first call stored `newCi` (or erased the record when empty)
      have holdci : (alookup s1.retainers retainerPath).getD [] =
          (if (newCiOf h64 requests).isEmpty then [] else newCiOf h64 requests) := by
        rw [hret, hu, hcase]
        by_cases hne : (newCiOf h64 requests).isEmpty
        · rw [if_pos hne, if_pos hne,
            alookup_aerase_aset_self s.retainers retainerPath _ hnd]
          rfl
        · rw [if_neg hne, if_neg hne, alookup_aset_self]
          rfl
      apply updateRetainedCaches_eq_of_empty_diff
      · unfold addedReferencesOf
        rw [holdci]
        by_cases hne : (newCiOf h64 requests).isEmpty
        · rw [if_pos hne, List.isEmpty_iff.mp hne]
          rfl
        · rw [if_neg hne]
          exact filter_not_contains_self _
      · unfold removedReferencesOf
        rw [holdci]
        by_cases hne : (newCiOf h64 requests).isEmpty
        · rw [if_pos hne]
          rfl
        · rw [if_neg hne]
          exact filter_not_contains_self _
  refine ⟨hnoop, ?_⟩
  rw [hnoop]
  unfold saveMetadataIfDirty
  rw [hdirty]

theorem releaseLoop_retainers (refs : List String)
    (acc : CacheState × List (String × Int)) :
    ((refs.foldl releaseStep acc).1).retainers = acc.1.retainers := by
  induction refs generalizing acc with
  | nil => rfl
  | cons k t ih =>
      rw [List.foldl_cons, ih]
      simp only [releaseStep]
      split <;> simp [removeCacheItem_retainers]

/-! ## C8: no empty retainer records are kept -/

/-- C8: retainer records with an empty `ref` set are never kept — if no
retainer record of `s` has empty `refs`, the same holds after any
`updateRetainedCaches` call (the record is deleted when its new reference
set is empty) and after any `removeRetainer` call (the record is deleted
outright). -/
theorem no_empty_retainer_records (h64 : String → String)
    (requests : List CacheRequest) (p path : String) (s : CacheState)
    (hne : ∀ pr ∈ s.retainers, pr.2 ≠ []) :
    (∀ pr ∈ (updateRetainedCaches h64 requests p s).retainers, pr.2 ≠ [])
    ∧ (∀ pr ∈ (removeRetainer s path).retainers, pr.2 ≠ []) := by
  constructor
  · rcases updateRetainedCaches_cases h64 requests p s with ⟨_, _, heq⟩ | hcase
    · rw [heq]; exact hne
    · intro pr hpr
      rw [hcase] at hpr
      by_cases hni : (newCiOf h64 requests).isEmpty
      · rw [if_pos hni] at hpr
        exact hne pr (mem_aerase_aset_elim hpr)
      · rw [if_neg hni] at hpr
        rcases mem_aset_elim hpr with h1 | h2
        · rw [h1]
          simpa [List.isEmpty_iff] using hni
        · exact hne pr h2
  · unfold removeRetainer
    rcases hl : alookup s.retainers path with _ | refs
    · exact hne
    · intro pr hpr
      simp only at hpr
      have hpr2 : pr ∈ aerase ((refs.foldl releaseStep (s, retainCount s (some refs))).1).retainers path := hpr
      have hpr3 := mem_aerase_elim hpr2
      rw [releaseLoop_retainers] at hpr3
      exact hne pr hpr3

/-! ## Characterizing `retainCount` -/

theorem alookup_bumpCount_self (rc : List (String × Int)) (k : String) :
    alookup (bumpCount rc k) k = (alookup rc k).map (· + 1) := by
  induction rc with
  | nil => simp [bumpCount, alookup]
  | cons pr t ih =>
      by_cases h : pr.1 = k
      · simp [bumpCount, alookup, h]
      · simp [bumpCount, alookup, h, ih]

theorem alookup_bumpCount_ne (rc : List (String × Int)) (k k' : String)
    (h : k' ≠ k) : alookup (bumpCount rc k) k' = alookup rc k' := by
  induction rc with
  | nil => simp [bumpCount, alookup]
  | cons pr t ih =>
      by_cases hh : pr.1 = k
      · simp [bumpCount, alookup, hh, Ne.symm h]
      · by_cases hk' : pr.1 = k'
        · simp [bumpCount, alookup, hh, hk', h]
        · simp [bumpCount, alookup, hh, hk', ih]

theorem alookup_foldl_bumpCount (refs : List String) (rc : List (String × Int))
    (k : String) :
    alookup (refs.foldl bumpCount rc) k
      = (alookup rc k).map (· + (refs.count k : Int)) := by
  induction refs generalizing rc with
  | nil =>
      rcases h : alookup rc k with _ | n <;> simp [h]
  | cons a t ih =>
      rw [List.foldl_cons, ih]
      by_cases h : a = k
      · rw [h, alookup_bumpCount_self]
        rcases hx : alookup rc k with _ | n
        · simp
        · simp [List.count_cons]
          ring
      · rw [alookup_bumpCount_ne rc a k (Ne.symm h)]
        rcases hx : alookup rc k with _ | n
        · simp
        · simp [List.count_cons, h]

theorem alookup_foldl_retainers (rs : List (String × List String))
    (init : List (String × Int)) (k : String) :
    alookup (rs.foldl (fun acc pr => pr.2.foldl bumpCount acc) init) k
      = (alookup init k).map
          (· + ((rs.map (fun pr => (pr.2.count k : Int))).sum)) := by
  induction rs generalizing init with
  | nil =>
      rcases h : alookup init k with _ | n <;> simp [h]
  | cons pr t ih =>
      rw [List.foldl_cons, ih, alookup_foldl_bumpCount]
      rcases hx : alookup init k with _ | n
      · simp
      · simp
        ring

theorem alookup_foldl_aset_zero (keys : List String) (acc : List (String × Int))
    (k : String) :
    alookup (keys.foldl (fun a key => aset a key 0) acc) k
      = if k ∈ keys then some 0 else alookup acc k := by
  induction keys generalizing acc with
  | nil => simp
  | cons a t ih =>
      rw [List.foldl_cons, ih]
      by_cases h : k ∈ t
      · simp [h]
      · by_cases hk : k = a
        · simp [h, hk, alookup_aset_self]
        · simp [h, hk, alookup_aset_ne acc a k 0 hk]

theorem sum_count_eq_countRetainers (rs : List (String × List String)) (k : String)
    (hnd : ∀ pr ∈ rs, pr.2.Nodup) :
    (rs.map (fun pr => (pr.2.count k : Int))).sum
      = ((rs.filter (fun pr => pr.2.contains k)).length : Int) := by
  induction rs with
  | nil => simp
  | cons pr t ih =>
      have hpr : pr.2.Nodup := hnd pr (List.mem_cons_self pr t)
      have ht : ∀ q ∈ t, q.2.Nodup := fun q hq => hnd q (List.mem_cons_of_mem _ hq)
      rw [List.map_cons, List.sum_cons, ih ht]
      by_cases hm : k ∈ pr.2
      · rw [List.count_eq_one_of_mem hpr hm]
        rw [List.filter_cons_of_pos (by simpa [List.elem_iff] using hm)]
        simp
        ring
      · rw [List.count_eq_zero_of_not_mem hm]
        rw [List.filter_cons_of_neg (by simpa [List.elem_iff] using hm)]
        simp

/-- In a state whose retainer `ref` lists are duplicate-free, `retainCount`
registers exactly the item keys, and its value on an item key is the number
of retainer records referencing it. -/
theorem retainCount_lookup (s : CacheState) (k : String)
    (hnd : ∀ pr ∈ s.retainers, pr.2.Nodup) :
    alookup (retainCount s none) k
      = if k ∈ akeys s.items then some ((countRetainersContaining s k : Int))
        else none := by
  unfold retainCount countRetainersContaining
  rw [alookup_foldl_retainers, alookup_foldl_aset_zero,
    sum_count_eq_countRetainers s.retainers k hnd]
  by_cases hm : k ∈ akeys s.items
  · simp [hm]
  · simp [hm, alookup]

/-! ## Effects of `removeCacheItem` and the release loops -/

theorem removeCacheItem_items_ne (s : CacheState) (k x : String) (h : x ≠ k) :
    x ∈ akeys (removeCacheItem s k).items ↔ x ∈ akeys s.items := by
  unfold removeCacheItem
  rcases hl : alookup s.items k with _ | v
  · simp
  · simp only
    rw [akeys_aerase]
    exact List.mem_erase_of_ne h

theorem removeCacheItem_disk_ne (s : CacheState) (k x : String) (h : x ≠ k) :
    x ∈ (removeCacheItem s k).disk ↔ x ∈ s.disk := by
  unfold removeCacheItem
  rcases hl : alookup s.items k with _ | v
  · simp
  · simp only
    exact List.mem_erase_of_ne h

theorem removeCacheItem_not_mem_items (s : CacheState) (k : String)
    (hnd : (akeys s.items).Nodup) : k ∉ akeys (removeCacheItem s k).items := by
  unfold removeCacheItem
  rcases hl : alookup s.items k with _ | v
  · simp only
    exact (alookup_eq_none_iff s.items k).mp hl
  · simp only
    rw [akeys_aerase]
    exact hnd.not_mem_erase

theorem removeCacheItem_preserves (s : CacheState) (k : String)
    (h : ItemsDiskOk s) : ItemsDiskOk (removeCacheItem s k) := by
  obtain ⟨h1, h2, h3⟩ := h
  unfold removeCacheItem
  rcases hl : alookup s.items k with _ | v
  · exact ⟨h1, h2, h3⟩
  · refine ⟨?_, ?_, ?_⟩
    · simp only
      rw [akeys_aerase]
      exact h1.erase k
    · exact h2.erase k
    · intro x
      simp only
      rw [akeys_aerase, h2.mem_erase_iff, h1.mem_erase_iff, h3 x]

theorem gcDeleteRemoved_preserves (rc : List (String × Int)) (removed : List String)
    (s : CacheState) (h : ItemsDiskOk s) : ItemsDiskOk (gcDeleteRemoved rc removed s) := by
  induction removed generalizing s with
  | nil => exact h
  | cons a t ih =>
      unfold gcDeleteRemoved at ih ⊢
      rw [List.foldl_cons]
      apply ih
      split
      · exact removeCacheItem_preserves s a h
      · exact h

theorem gcDeleteRemoved_mem_of_not_mem (rc : List (String × Int))
    (removed : List String) (s : CacheState) (x : String) (hx : x ∉ removed) :
    (x ∈ akeys (gcDeleteRemoved rc removed s).items ↔ x ∈ akeys s.items)
    ∧ (x ∈ (gcDeleteRemoved rc removed s).disk ↔ x ∈ s.disk) := by
  induction removed generalizing s with
  | nil => exact ⟨Iff.rfl, Iff.rfl⟩
  | cons a t ih =>
      have hxa : x ≠ a := fun hxa => hx (hxa ▸ List.mem_cons_self a t)
      have hxt : x ∉ t := fun hxt => hx (List.mem_cons_of_mem a hxt)
      unfold gcDeleteRemoved at ih ⊢
      rw [List.foldl_cons]
      constructor
      · rw [(ih _ hxt).1]
        split
        · exact removeCacheItem_items_ne s a x hxa
        · exact Iff.rfl
      · rw [(ih _ hxt).2]
        split
        · exact removeCacheItem_disk_ne s a x hxa
        · exact Iff.rfl

/-- The effect of the release loop on a removed key `k` (one occurrence in
`removed`): the key survives in `items` exactly when its pre-computed
retain count is non-zero. -/
theorem gcDeleteRemoved_mem_items (rc : List (String × Int)) (removed : List String)
    (s : CacheState) (k : String) (hk : k ∈ removed) (hnd : removed.Nodup)
    (hok : ItemsDiskOk s) :
    k ∈ akeys (gcDeleteRemoved rc removed s).items ↔
      (k ∈ akeys s.items ∧ ¬ alookup rc k = some 0) := by
  induction removed generalizing s with
  | nil => simp at hk
  | cons a t ih =>
      unfold gcDeleteRemoved at ih ⊢
      rw [List.foldl_cons]
      by_cases hka : k = a
      · subst hka
        have hkt : k ∉ t := (List.nodup_cons.mp hnd).1
        by_cases hrc : alookup rc k = some 0
        · rw [if_pos hrc]
          have h1 : k ∉ akeys (removeCacheItem s k).items :=
            removeCacheItem_not_mem_items s k hok.1
          have h2 := (gcDeleteRemoved_mem_of_not_mem rc t (removeCacheItem s k) k hkt).1
          unfold gcDeleteRemoved at h2
          rw [h2]
          simp [h1, hrc]
        · rw [if_neg hrc]
          have h2 := (gcDeleteRemoved_mem_of_not_mem rc t s k hkt).1
          unfold gcDeleteRemoved at h2
          rw [h2]
          simp [hrc]
      · have hkt : k ∈ t := by
          rcases List.mem_cons.mp hk with h | h
          · exact absurd h hka
          · exact h
        have hndt : t.Nodup := (List.nodup_cons.mp hnd).2
        split
        · rw [ih (removeCacheItem s a) hkt hndt (removeCacheItem_preserves s a hok),
            removeCacheItem_items_ne s a k hka]
        · rw [ih s hkt hndt hok]

/-! ## Well-formedness preservation -/

theorem newCiOf_aux_nodup (h64 : String → String) (requests : List CacheRequest)
    (acc : List String) (hacc : acc.Nodup) :
    (requests.foldl
      (fun a r =>
        let cacheKey := createCacheKeyFromRequest h64 r
        if a.contains cacheKey then a else a ++ [cacheKey]) acc).Nodup := by
  induction requests generalizing acc with
  | nil => exact hacc
  | cons r t ih =>
      rw [List.foldl_cons]
      apply ih
      simp only
      split
      · exact hacc
      · rename_i hc
        simp only [List.elem_iff] at hc
        simp [List.nodup_append, hacc, hc]

theorem newCiOf_nodup (h64 : String → String) (requests : List CacheRequest) :
    (newCiOf h64 requests).Nodup :=
  newCiOf_aux_nodup h64 requests [] List.nodup_nil

theorem mem_aset_key_eq {α : Type} {l : List (String × α)} {k : String} {v : α}
    {pr : String × α} (hnd : (akeys l).Nodup) (h : pr ∈ aset l k v)
    (hk : pr.1 = k) : pr = (k, v) := by
  induction l with
  | nil =>
      rw [show aset ([] : List (String × α)) k v = [(k, v)] from rfl] at h
      simpa using h
  | cons q t ih =>
      have hq : q.1 ∉ akeys t := by
        rw [akeys_cons] at hnd
        exact (List.nodup_cons.mp hnd).1
      have hndt : (akeys t).Nodup := by
        rw [akeys_cons] at hnd
        exact (List.nodup_cons.mp hnd).2
      by_cases hh : q.1 = k
      · rw [show aset (q :: t) k v = (q.1, v) :: t by simp [aset, hh]] at h
        rcases List.mem_cons.mp h with h1 | h2
        · rw [h1, hh]
        · have hmem : pr.1 ∈ akeys t := List.mem_map_of_mem Prod.fst h2
          rw [hk, ← hh] at hmem
          exact absurd hmem hq
      · rw [show aset (q :: t) k v = q :: aset t k v by simp [aset, hh]] at h
        rcases List.mem_cons.mp h with h1 | h2
        · exact absurd (h1 ▸ hk) hh
        · exact ih hndt h2

theorem refs_nodup_aset (s : CacheState) (p : String) (newCi : List String)
    (hwf : ∀ pr ∈ s.retainers, pr.2.Nodup) (hnew : newCi.Nodup) :
    ∀ pr ∈ aset s.retainers p newCi, pr.2.Nodup := by
  intro pr hpr
  rcases mem_aset_elim hpr with h1 | h2
  · rw [h1]; exact hnew
  · exact hwf pr h2

theorem gcMidState_retainers (h64 : String → String) (requests : List CacheRequest)
    (p : String) (s : CacheState) :
    (gcMidState h64 requests p s).retainers = aset s.retainers p (newCiOf h64 requests) := rfl

theorem gcAfterDelete_retainers (h64 : String → String) (requests : List CacheRequest)
    (p : String) (s : CacheState) :
    (gcAfterDelete h64 requests p s).retainers = aset s.retainers p (newCiOf h64 requests) := by
  unfold gcAfterDelete
  rw [gcDeleteRemoved_retainers, gcMidState_retainers]

theorem gcMidState_ok (h64 : String → String) (requests : List CacheRequest)
    (p : String) (s : CacheState) (hok : ItemsDiskOk s) :
    ItemsDiskOk (gcMidState h64 requests p s) := hok

theorem gcAfterDelete_ok (h64 : String → String) (requests : List CacheRequest)
    (p : String) (s : CacheState) (hok : ItemsDiskOk s) :
    ItemsDiskOk (gcAfterDelete h64 requests p s) :=
  gcDeleteRemoved_preserves _ _ _ (gcMidState_ok h64 requests p s hok)

theorem ItemsDiskOk_of_WF (s : CacheState) (hwf : WF s) : ItemsDiskOk s :=
  ⟨hwf.2.2.1, hwf.2.2.2.1,
    fun x => ⟨fun hx => hwf.2.2.2.2.1 x hx, fun hx => hwf.2.2.2.2.2 x hx⟩⟩

theorem WF_updateRetainedCaches (h64 : String → String)
    (requests : List CacheRequest) (p : String) (s : CacheState) (hwf : WF s) :
    WF (updateRetainedCaches h64 requests p s) := by
  obtain ⟨w1, w2, w3, w4, w5, w6⟩ := hwf
  by_cases hc : (addedReferencesOf h64 requests p s).isEmpty
      ∧ (removedReferencesOf h64 requests p s).isEmpty
  · unfold updateRetainedCaches
    rw [if_pos hc]
    exact ⟨w1, w2, w3, w4, w5, w6⟩
  · unfold updateRetainedCaches
    rw [if_neg hc]
    simp only
    have hok2 : ItemsDiskOk (gcAfterDelete h64 requests p s) :=
      gcAfterDelete_ok h64 requests p s
        ⟨w3, w4, fun x => ⟨fun hx => w5 x hx, fun hx => w6 x hx⟩⟩
    have hkeys : (akeys (aset s.retainers p (newCiOf h64 requests))).Nodup :=
      nodup_akeys_aset _ _ _ w1
    have hrefs : ∀ pr ∈ aset s.retainers p (newCiOf h64 requests), pr.2.Nodup :=
      refs_nodup_aset s p _ w2 (newCiOf_nodup h64 requests)
    split
    · refine ⟨?_, ?_, hok2.1, hok2.2.1, fun x hx => (hok2.2.2 x).mp hx,
        fun x hx => (hok2.2.2 x).mpr hx⟩
      · rw [akeys_aerase, gcAfterDelete_retainers]
        exact hkeys.erase p
      · intro pr hpr
        have hmem := mem_aerase_elim hpr
        rw [gcAfterDelete_retainers] at hmem
        exact hrefs pr hmem
    · refine ⟨?_, ?_, hok2.1, hok2.2.1, fun x hx => (hok2.2.2 x).mp hx,
        fun x hx => (hok2.2.2 x).mpr hx⟩
      · rw [gcAfterDelete_retainers]
        exact hkeys
      · intro pr hpr
        rw [gcAfterDelete_retainers] at hpr
        exact hrefs pr hpr

theorem releaseLoop_preserves (refs : List String)
    (acc : CacheState × List (String × Int)) (h : ItemsDiskOk acc.1) :
    ItemsDiskOk ((refs.foldl releaseStep acc).1) := by
  induction refs generalizing acc with
  | nil => exact h
  | cons a t ih =>
      rw [List.foldl_cons]
      apply ih
      simp only [releaseStep]
      split
      · exact removeCacheItem_preserves acc.1 a h
      · exact h

theorem WF_removeRetainer (s : CacheState) (path : String) (hwf : WF s) :
    WF (removeRetainer s path) := by
  obtain ⟨w1, w2, w3, w4, w5, w6⟩ := hwf
  unfold removeRetainer
  rcases hl : alookup s.retainers path with _ | refs
  · exact ⟨w1, w2, w3, w4, w5, w6⟩
  · simp only
    have hok : ItemsDiskOk
        ((refs.foldl releaseStep (s, retainCount s (some refs))).1) :=
      releaseLoop_preserves refs (s, retainCount s (some refs))
        ⟨w3, w4, fun x => ⟨fun hx => w5 x hx, fun hx => w6 x hx⟩⟩
    have hret := releaseLoop_retainers refs (s, retainCount s (some refs))
    refine ⟨?_, ?_, hok.1, hok.2.1, fun x hx => (hok.2.2 x).mp hx,
      fun x hx => (hok.2.2 x).mpr hx⟩
    · rw [show akeys (aerase ((refs.foldl releaseStep (s, retainCount s (some refs))).1).retainers path)
          = (akeys ((refs.foldl releaseStep (s, retainCount s (some refs))).1).retainers).erase path
        from akeys_aerase _ _]
      rw [hret]
      exact w1.erase path
    · intro pr hpr
      have := mem_aerase_elim hpr
      rw [hret] at this
      exact w2 pr this

theorem WF_applyOp (h64 : String → String) (s : CacheState) (op : CacheOp)
    (hwf : WF s) : WF (applyOp h64 s op) := by
  cases op with
  | update requests retainerPath => exact WF_updateRetainedCaches h64 requests retainerPath s hwf
  | removeRet path => exact WF_removeRetainer s path hwf

theorem WF_runOps (h64 : String → String) (ops : List CacheOp) (s : CacheState)
    (hwf : WF s) : WF (runOps h64 ops s) := by
  induction ops generalizing s with
  | nil => exact hwf
  | cons op t ih =>
      unfold runOps at ih ⊢
      rw [List.foldl_cons]
      exact ih _ (WF_applyOp h64 s op hwf)

/-! ## C1: retain-count consistency and delete-iff-zero -/

theorem alookup_mem {α : Type} {l : List (String × α)} {k : String} {v : α}
    (h : alookup l k = some v) : (k, v) ∈ l := by
  induction l with
  | nil => simp [alookup] at h
  | cons q t ih =>
      by_cases hh : q.1 = k
      · rw [show alookup (q :: t) k = some q.2 by simp [alookup, hh]] at h
        have hv : q.2 = v := by injection h
        exact List.mem_cons.mpr (Or.inl (by rw [← hh, ← hv]))
      · rw [show alookup (q :: t) k = alookup t k by simp [alookup, hh]] at h
        exact List.mem_cons_of_mem _ (ih h)

theorem filter_length_aerase_of_false (l : List (String × List String))
    (p k : String) (h : ∀ pr ∈ l, pr.1 = p → pr.2.contains k = false) :
    ((aerase l p).filter (fun pr => pr.2.contains k)).length
      = (l.filter (fun pr => pr.2.contains k)).length := by
  induction l with
  | nil => rfl
  | cons q t ih =>
      by_cases hh : q.1 = p
      · rw [show aerase (q :: t) p = t by simp [aerase, hh]]
        have hcf := h q (List.mem_cons_self q t) hh
        rw [List.filter_cons_of_neg (by rw [hcf]; simp)]
      · rw [show aerase (q :: t) p = q :: aerase t p by simp [aerase, hh]]
        have ht : ∀ pr ∈ t, pr.1 = p → pr.2.contains k = false :=
          fun pr hpr => h pr (List.mem_cons_of_mem _ hpr)
        by_cases hq : q.2.contains k
        · rw [List.filter_cons_of_pos (by exact hq),
            List.filter_cons_of_pos (by exact hq)]
          rw [List.length_cons, List.length_cons, ih ht]
        · rw [List.filter_cons_of_neg (by exact hq),
            List.filter_cons_of_neg (by exact hq)]
          exact ih ht

theorem oldCi_nodup (p : String) (s : CacheState) (hwf : WF s) :
    ((alookup s.retainers p).getD []).Nodup := by
  rcases hl : alookup s.retainers p with _ | refs
  · simp
  · simpa using hwf.2.1 (p, refs) (alookup_mem hl)

theorem removedReferencesOf_nodup (h64 : String → String)
    (requests : List CacheRequest) (p : String) (s : CacheState) (hwf : WF s) :
    (removedReferencesOf h64 requests p s).Nodup := by
  unfold removedReferencesOf
  exact (oldCi_nodup p s hwf).filter _

theorem not_mem_newCi_of_removed (h64 : String → String)
    (requests : List CacheRequest) (p : String) (s : CacheState) (k : String)
    (hk : k ∈ removedReferencesOf h64 requests p s) : k ∉ newCiOf h64 requests := by
  unfold removedReferencesOf at hk
  simp only at hk
  intro hmem
  have h2 := (List.mem_filter.mp hk).2
  simp [List.elem_iff] at h2
  exact h2 hmem

/-- The delete-iff-zero half of the GC property: a removed key with a
metadata entry is deleted from `items` (and its blob from disk) exactly
when its resulting global retain count is 0; a key still referenced by
another retainer is kept. -/
theorem updateRetainedCaches_deletes_iff (h64 : String → String)
    (requests : List CacheRequest) (p : String) (s : CacheState) (hwf : WF s) :
    ∀ k ∈ removedReferencesOf h64 requests p s, k ∈ akeys s.items →
      ((k ∉ akeys (updateRetainedCaches h64 requests p s).items
          ↔ countRetainersContaining (updateRetainedCaches h64 requests p s) k = 0)
       ∧ (k ∉ (updateRetainedCaches h64 requests p s).disk
          ↔ countRetainersContaining (updateRetainedCaches h64 requests p s) k = 0)) := by
  intro k hk hki
  have hc : ¬ ((addedReferencesOf h64 requests p s).isEmpty
      ∧ (removedReferencesOf h64 requests p s).isEmpty) := by
    rintro ⟨_, hr⟩
    rw [List.isEmpty_iff] at hr
    rw [hr] at hk
    simp at hk
  have hupd : updateRetainedCaches h64 requests p s =
      (if (newCiOf h64 requests).isEmpty
       then { gcAfterDelete h64 requests p s with
                retainers := aerase (gcAfterDelete h64 requests p s).retainers p }
       else gcAfterDelete h64 requests p s) := by
    unfold updateRetainedCaches
    rw [if_neg hc]
  -- facts about the mid state
  have hmid_refs : ∀ pr ∈ (gcMidState h64 requests p s).retainers, pr.2.Nodup := by
    rw [gcMidState_retainers]
    exact refs_nodup_aset s p _ hwf.2.1 (newCiOf_nodup h64 requests)
  have hki_mid : k ∈ akeys (gcMidState h64 requests p s).items := hki
  have hrc : alookup (retainCount (gcMidState h64 requests p s) none) k
      = some ((countRetainersContaining (gcMidState h64 requests p s) k : Int)) := by
    rw [retainCount_lookup _ k hmid_refs, if_pos hki_mid]
  have hok_mid : ItemsDiskOk (gcMidState h64 requests p s) :=
    gcMidState_ok h64 requests p s (ItemsDiskOk_of_WF s hwf)
  -- membership in the post-loop items
  have hmem2 : k ∈ akeys (gcAfterDelete h64 requests p s).items ↔
      (k ∈ akeys (gcMidState h64 requests p s).items
        ∧ ¬ alookup (retainCount (gcMidState h64 requests p s) none) k = some 0) := by
    unfold gcAfterDelete
    exact gcDeleteRemoved_mem_items _ _ _ k hk
      (removedReferencesOf_nodup h64 requests p s hwf) hok_mid
  have hmem2' : k ∈ akeys (gcAfterDelete h64 requests p s).items ↔
      countRetainersContaining (gcMidState h64 requests p s) k ≠ 0 := by
    rw [hmem2, hrc]
    constructor
    · rintro ⟨_, hne⟩ hzero
      exact hne (by rw [hzero]; rfl)
    · intro hne
      refine ⟨hki_mid, fun heq => hne ?_⟩
      have : ((countRetainersContaining (gcMidState h64 requests p s) k : Int)) = 0 := by
        injection heq
      exact_mod_cast this
  -- retain counts only read the retainer table
  have hcount_mid : countRetainersContaining (gcMidState h64 requests p s) k
      = countRetainersContaining (updateRetainedCaches h64 requests p s) k := by
    unfold countRetainersContaining
    rw [hupd]
    by_cases hne : (newCiOf h64 requests).isEmpty
    · rw [if_pos hne]
      simp only
      rw [gcAfterDelete_retainers, gcMidState_retainers]
      rw [filter_length_aerase_of_false]
      intro pr hpr hpr1
      have := mem_aset_key_eq hwf.1 hpr hpr1
      rw [this]
      simp only
      have := not_mem_newCi_of_removed h64 requests p s k hk
      simpa [List.elem_iff] using this
    · rw [if_neg hne]
      rw [gcAfterDelete_retainers, gcMidState_retainers]
  -- items and disk of the final state are those of the post-loop state
  have hitems : (updateRetainedCaches h64 requests p s).items
      = (gcAfterDelete h64 requests p s).items := by
    rw [hupd]
    by_cases hne : (newCiOf h64 requests).isEmpty
    · rw [if_pos hne]
    · rw [if_neg hne]
  have hdisk : (updateRetainedCaches h64 requests p s).disk
      = (gcAfterDelete h64 requests p s).disk := by
    rw [hupd]
    by_cases hne : (newCiOf h64 requests).isEmpty
    · rw [if_pos hne]
    · rw [if_neg hne]
  have hok2 : ItemsDiskOk (gcAfterDelete h64 requests p s) :=
    gcAfterDelete_ok h64 requests p s (ItemsDiskOk_of_WF s hwf)
  constructor
  · rw [hitems, ← hcount_mid, hmem2']
    simp [not_not]
  · rw [hdisk, ← hcount_mid, hok2.2.2 k, hmem2']
    simp [not_not]

/-- C1: after any sequence of `updateRetainedCaches` and `removeRetainer`
calls on a well-formed store, (a) the global retain count `retainCount`
computes for a cache key equals the number of retainer records whose `ref`
contains that key, and (b) when a further `updateRetainedCaches` call
removes a key from the retainer's references, that key's metadata entry
and blob file are deleted if and only if its resulting global retain count
is 0 — a key still referenced by another retainer is kept. -/
theorem retain_count_consistency (h64 : String → String) (ops : List CacheOp)
    (s0 : CacheState) (hwf : WF s0) :
    (∀ k ∈ akeys (runOps h64 ops s0).items,
        alookup (retainCount (runOps h64 ops s0) none) k
          = some ((countRetainersContaining (runOps h64 ops s0) k : Int)))
    ∧ (∀ requests p k,
        k ∈ removedReferencesOf h64 requests p (runOps h64 ops s0) →
        k ∈ akeys (runOps h64 ops s0).items →
        ((k ∉ akeys (updateRetainedCaches h64 requests p (runOps h64 ops s0)).items
            ↔ countRetainersContaining
                (updateRetainedCaches h64 requests p (runOps h64 ops s0)) k = 0)
         ∧ (k ∉ (updateRetainedCaches h64 requests p (runOps h64 ops s0)).disk
            ↔ countRetainersContaining
                (updateRetainedCaches h64 requests p (runOps h64 ops s0)) k = 0))) := by
  have hwfr := WF_runOps h64 ops s0 hwf
  constructor
  · intro k hk
    rw [retainCount_lookup _ k hwfr.2.1, if_pos hk]
  · intro requests p k hk hki
    exact updateRetainedCaches_deletes_iff h64 requests p _ hwfr k hk hki

/-- Witness for C1 at a concrete input: the empty store is well-formed and
the property holds after one retaining pass. -/
theorem retain_count_consistency_witness :
    WF { retainers := [], items := [], disk := [], isMetadataDirty := false }
    ∧ ((∀ k ∈ akeys (runOps (fun x => x)
          [CacheOp.update [{ source := "u", requesterPath := "n.md" }] "n.md"]
          { retainers := [], items := [], disk := [], isMetadataDirty := false }).items,
        alookup (retainCount (runOps (fun x => x)
          [CacheOp.update [{ source := "u", requesterPath := "n.md" }] "n.md"]
          { retainers := [], items := [], disk := [], isMetadataDirty := false }) none) k
          = some ((countRetainersContaining (runOps (fun x => x)
              [CacheOp.update [{ source := "u", requesterPath := "n.md" }] "n.md"]
              { retainers := [], items := [], disk := [], isMetadataDirty := false }) k : Int)))
    ∧ (∀ requests p k,
        k ∈ removedReferencesOf (fun x => x) requests p (runOps (fun x => x)
          [CacheOp.update [{ source := "u", requesterPath := "n.md" }] "n.md"]
          { retainers := [], items := [], disk := [], isMetadataDirty := false }) →
        k ∈ akeys (runOps (fun x => x)
          [CacheOp.update [{ source := "u", requesterPath := "n.md" }] "n.md"]
          { retainers := [], items := [], disk := [], isMetadataDirty := false }).items →
        ((k ∉ akeys (updateRetainedCaches (fun x => x) requests p (runOps (fun x => x)
              [CacheOp.update [{ source := "u", requesterPath := "n.md" }] "n.md"]
              { retainers := [], items := [], disk := [], isMetadataDirty := false })).items
            ↔ countRetainersContaining
                (updateRetainedCaches (fun x => x) requests p (runOps (fun x => x)
                  [CacheOp.update [{ source := "u", requesterPath := "n.md" }] "n.md"]
                  { retainers := [], items := [], disk := [], isMetadataDirty := false })) k = 0)
         ∧ (k ∉ (updateRetainedCaches (fun x => x) requests p (runOps (fun x => x)
              [CacheOp.update [{ source := "u", requesterPath := "n.md" }] "n.md"]
              { retainers := [], items := [], disk := [], isMetadataDirty := false })).disk
            ↔ countRetainersContaining
                (updateRetainedCaches (fun x => x) requests p (runOps (fun x => x)
                  [CacheOp.update [{ source := "u", requesterPath := "n.md" }] "n.md"]
                  { retainers := [], items := [], disk := [], isMetadataDirty := false })) k = 0)))) :=
  ⟨by decide,
   retain_count_consistency (fun x => x)
     [CacheOp.update [{ source := "u", requesterPath := "n.md" }] "n.md"]
     { retainers := [], items := [], disk := [], isMetadataDirty := false } (by decide)⟩

/-- Witness for C3 at a concrete input: a retainer releasing its only
reference; the second identical call is a no-op with no second write. -/
theorem updateRetainedCaches_idempotent_witness :
    (akeys (CacheState.mk [("n.md", ["k0"])] [] [] false).retainers).Nodup
    ∧ (updateRetainedCaches (fun x => x) [] "n.md"
        (saveMetadataIfDirty (updateRetainedCaches (fun x => x) [] "n.md"
          (CacheState.mk [("n.md", ["k0"])] [] [] false))).2
      = (saveMetadataIfDirty (updateRetainedCaches (fun x => x) [] "n.md"
          (CacheState.mk [("n.md", ["k0"])] [] [] false))).2
    ∧ (saveMetadataIfDirty
        (updateRetainedCaches (fun x => x) [] "n.md"
          (saveMetadataIfDirty (updateRetainedCaches (fun x => x) [] "n.md"
            (CacheState.mk [("n.md", ["k0"])] [] [] false))).2)).1
      = false) :=
  ⟨by decide,
   updateRetainedCaches_idempotent (fun x => x) [] "n.md"
     (CacheState.mk [("n.md", ["k0"])] [] [] false) (by decide)⟩

/-- Witness for C8 at a concrete input. -/
theorem no_empty_retainer_records_witness :
    (∀ pr ∈ (CacheState.mk [("a.md", ["k"])] [] [] false).retainers, pr.2 ≠ [])
    ∧ ((∀ pr ∈ (updateRetainedCaches (fun x => x) [] "a.md"
          (CacheState.mk [("a.md", ["k"])] [] [] false)).retainers, pr.2 ≠ [])
    ∧ (∀ pr ∈ (removeRetainer
          (CacheState.mk [("a.md", ["k"])] [] [] false) "a.md").retainers, pr.2 ≠ [])) :=
  ⟨by decide,
   no_empty_retainer_records (fun x => x) [] "a.md" "a.md"
     (CacheState.mk [("a.md", ["k"])] [] [] false) (by decide)⟩

/-! ## C2: the ignore set shields in-flight references from release -/

theorem mem_newCiOf_aux (h64 : String → String) (requests : List CacheRequest)
    (acc : List String) (k : String) :
    (k ∈ requests.foldl
      (fun a r =>
        let cacheKey := createCacheKeyFromRequest h64 r
        if a.contains cacheKey then a else a ++ [cacheKey]) acc)
    ↔ (k ∈ acc ∨ k ∈ keysOfRequests h64 requests) := by
  induction requests generalizing acc with
  | nil => simp [keysOfRequests]
  | cons r t ih =>
      rw [List.foldl_cons]
      simp only
      split
      · rename_i hc
        rw [ih]
        simp only [keysOfRequests, List.map_cons, List.mem_cons]
        constructor
        · rintro (h | h)
          · exact Or.inl h
          · exact Or.inr (Or.inr h)
        · rintro (h | h | h)
          · exact Or.inl h
          · rw [h]
            exact Or.inl (List.elem_iff.mp hc)
          · exact Or.inr h
      · rw [ih]
        simp only [keysOfRequests, List.map_cons, List.mem_cons, List.mem_append,
          List.mem_singleton]
        tauto

theorem mem_newCiOf (h64 : String → String) (requests : List CacheRequest)
    (k : String) : k ∈ newCiOf h64 requests ↔ k ∈ keysOfRequests h64 requests := by
  unfold newCiOf
  rw [mem_newCiOf_aux]
  simp

/-- C2 (modelled from the spec, see `updateRetainedCachesWithIgnore`):
when the pass ends with reference set `R` and an ignore set, assuming the
invariant that the retainer's stored references point to existing items,
(a) the released key set equals `(R_old \ R) \ ignoredKeys`, and (b) a key
of the ignore set that is in `R_old` is neither removed from the
retainer's `refs` nor has its metadata entry or blob deleted by the call,
even though `R` does not re-request it. -/
theorem updateRetainedCachesWithIgnore_released (h64 : String → String)
    (requests : List CacheRequest) (p : String)
    (requestsToIgnore : List CacheRequest) (s : CacheState)
    (hsub : ∀ k ∈ (alookup s.retainers p).getD [], k ∈ akeys s.items) :
    (∀ k, k ∈ removedWithIgnoreOf h64 requests p requestsToIgnore s ↔
      (k ∈ (alookup s.retainers p).getD []
        ∧ k ∉ keysOfRequests h64 requests
        ∧ k ∉ keysOfRequests h64 requestsToIgnore))
    ∧ (∀ k, k ∈ keysOfRequests h64 requestsToIgnore →
        k ∈ (alookup s.retainers p).getD [] →
        (k ∈ (alookup (updateRetainedCachesWithIgnore h64 requests p requestsToIgnore s).retainers p).getD []
         ∧ (k ∈ akeys (updateRetainedCachesWithIgnore h64 requests p requestsToIgnore s).items
              ↔ k ∈ akeys s.items)
         ∧ (k ∈ (updateRetainedCachesWithIgnore h64 requests p requestsToIgnore s).disk
              ↔ k ∈ s.disk))) := by
  constructor
  · intro k
    unfold removedWithIgnoreOf
    rw [List.mem_filter]
    constructor
    · rintro ⟨hold, hcond⟩
      simp only [Bool.and_eq_true, Bool.not_eq_true', ← Bool.not_eq_true] at hcond
      obtain ⟨h1, h2⟩ := hcond
      refine ⟨hold, ?_, ?_⟩
      · intro hmem
        apply h1
        unfold newCiWithItemsOf
        rw [List.elem_iff]
        rw [List.mem_filter]
        refine ⟨(mem_newCiOf h64 requests k).mpr hmem, ?_⟩
        rw [List.elem_iff]
        exact hsub k hold
      · intro hmem
        exact h2 (List.elem_iff.mpr hmem)
    · rintro ⟨hold, h1, h2⟩
      refine ⟨hold, ?_⟩
      simp only [Bool.and_eq_true, Bool.not_eq_true', ← Bool.not_eq_true]
      constructor
      · intro hc
        apply h1
        have := List.elem_iff.mp hc
        unfold newCiWithItemsOf at this
        rw [List.mem_filter] at this
        exact (mem_newCiOf h64 requests k).mp this.1
      · intro hc
        exact h2 (List.elem_iff.mp hc)
  · intro k hig hold
    have hnotrem : k ∉ removedWithIgnoreOf h64 requests p requestsToIgnore s := by
      unfold removedWithIgnoreOf
      rw [List.mem_filter]
      rintro ⟨_, hcond⟩
      simp only [Bool.and_eq_true, Bool.not_eq_true'] at hcond
      have h2 := hcond.2
      have h3 : (keysOfRequests h64 requestsToIgnore).contains k = true :=
        List.elem_iff.mpr hig
      rw [h2] at h3
      exact absurd h3 (by simp)
    by_cases hc : (addedWithIgnoreOf h64 requests p s).isEmpty
        ∧ (removedWithIgnoreOf h64 requests p requestsToIgnore s).isEmpty
    · unfold updateRetainedCachesWithIgnore
      rw [if_pos hc]
      exact ⟨hold, Iff.rfl, Iff.rfl⟩
    · have hrefs : k ∈ refsAfterIgnoreOf h64 requests p requestsToIgnore s := by
        unfold refsAfterIgnoreOf
        rw [List.mem_filter]
        refine ⟨List.mem_append.mpr (Or.inl hold), ?_⟩
        simp only [Bool.not_eq_true']
        rw [show (removedWithIgnoreOf h64 requests p requestsToIgnore s).contains k = false by
          rcases hcb : (removedWithIgnoreOf h64 requests p requestsToIgnore s).contains k with _ | _
          · rfl
          · exact absurd (List.elem_iff.mp hcb) hnotrem]
      have hrefsne : ¬ (refsAfterIgnoreOf h64 requests p requestsToIgnore s).isEmpty := by
        intro hemp
        rw [List.isEmpty_iff] at hemp
        rw [hemp] at hrefs
        simp at hrefs
      unfold updateRetainedCachesWithIgnore
      rw [if_neg hc]
      have hmidret : (gcIgnoreMidState h64 requests p requestsToIgnore s).retainers
          = aset s.retainers p (refsAfterIgnoreOf h64 requests p requestsToIgnore s) := by
        unfold gcIgnoreMidState
        simp only [hrefsne, if_false, Bool.false_eq_true]
      refine ⟨?_, ?_, ?_⟩
      · rw [gcDeleteRemoved_retainers, hmidret, alookup_aset_self]
        exact hrefs
      · rw [(gcDeleteRemoved_mem_of_not_mem _ _ _ k hnotrem).1]
        exact Iff.rfl
      · rw [(gcDeleteRemoved_mem_of_not_mem _ _ _ k hnotrem).2]
        exact Iff.rfl

/-- Witness for C2 at a concrete input: retainer `"n.md"` holds `"k1"`
(present in `items`), the new pass requests nothing but ignores `"k1"` and
requests `"k2"`; the ignored key must be kept. -/
theorem updateRetainedCachesWithIgnore_released_witness :
    (∀ k ∈ (alookup (CacheState.mk [("n.md", ["k1"])]
        [("k1", CacheMetadata.mk CacheType.IMAGE (CacheMetadataTime.mk "" "" none)
          (CacheMetadataFile.mk "k1" "n" "png" 0 none "h") none)] ["k1"] false).retainers
        "n.md").getD [],
      k ∈ akeys (CacheState.mk [("n.md", ["k1"])]
        [("k1", CacheMetadata.mk CacheType.IMAGE (CacheMetadataTime.mk "" "" none)
          (CacheMetadataFile.mk "k1" "n" "png" 0 none "h") none)] ["k1"] false).items)
    ∧ ((∀ k, k ∈ removedWithIgnoreOf (fun x => x) [] "n.md"
          [{ source := "k1", requesterPath := "n.md" }]
          (CacheState.mk [("n.md", ["k1"])]
            [("k1", CacheMetadata.mk CacheType.IMAGE (CacheMetadataTime.mk "" "" none)
              (CacheMetadataFile.mk "k1" "n" "png" 0 none "h") none)] ["k1"] false) ↔
        (k ∈ (alookup (CacheState.mk [("n.md", ["k1"])]
            [("k1", CacheMetadata.mk CacheType.IMAGE (CacheMetadataTime.mk "" "" none)
              (CacheMetadataFile.mk "k1" "n" "png" 0 none "h") none)] ["k1"] false).retainers
            "n.md").getD []
          ∧ k ∉ keysOfRequests (fun x => x) []
          ∧ k ∉ keysOfRequests (fun x => x) [{ source := "k1", requesterPath := "n.md" }]))
    ∧ (∀ k, k ∈ keysOfRequests (fun x => x) [{ source := "k1", requesterPath := "n.md" }] →
        k ∈ (alookup (CacheState.mk [("n.md", ["k1"])]
            [("k1", CacheMetadata.mk CacheType.IMAGE (CacheMetadataTime.mk "" "" none)
              (CacheMetadataFile.mk "k1" "n" "png" 0 none "h") none)] ["k1"] false).retainers
            "n.md").getD [] →
        (k ∈ (alookup (updateRetainedCachesWithIgnore (fun x => x) [] "n.md"
            [{ source := "k1", requesterPath := "n.md" }]
            (CacheState.mk [("n.md", ["k1"])]
              [("k1", CacheMetadata.mk CacheType.IMAGE (CacheMetadataTime.mk "" "" none)
                (CacheMetadataFile.mk "k1" "n" "png" 0 none "h") none)] ["k1"] false)).retainers
            "n.md").getD []
         ∧ (k ∈ akeys (updateRetainedCachesWithIgnore (fun x => x) [] "n.md"
              [{ source := "k1", requesterPath := "n.md" }]
              (CacheState.mk [("n.md", ["k1"])]
                [("k1", CacheMetadata.mk CacheType.IMAGE (CacheMetadataTime.mk "" "" none)
                  (CacheMetadataFile.mk "k1" "n" "png" 0 none "h") none)] ["k1"] false)).items
              ↔ k ∈ akeys (CacheState.mk [("n.md", ["k1"])]
                [("k1", CacheMetadata.mk CacheType.IMAGE (CacheMetadataTime.mk "" "" none)
                  (CacheMetadataFile.mk "k1" "n" "png" 0 none "h") none)] ["k1"] false).items)
         ∧ (k ∈ (updateRetainedCachesWithIgnore (fun x => x) [] "n.md"
              [{ source := "k1", requesterPath := "n.md" }]
              (CacheState.mk [("n.md", ["k1"])]
                [("k1", CacheMetadata.mk CacheType.IMAGE (CacheMetadataTime.mk "" "" none)
                  (CacheMetadataFile.mk "k1" "n" "png" 0 none "h") none)] ["k1"] false)).disk
              ↔ k ∈ (CacheState.mk [("n.md", ["k1"])]
                [("k1", CacheMetadata.mk CacheType.IMAGE (CacheMetadataTime.mk "" "" none)
                  (CacheMetadataFile.mk "k1" "n" "png" 0 none "h") none)] ["k1"] false).disk)))) :=
  ⟨by decide,
   updateRetainedCachesWithIgnore_released (fun x => x) [] "n.md"
     [{ source := "k1", requesterPath := "n.md" }]
     (CacheState.mk [("n.md", ["k1"])]
       [("k1", CacheMetadata.mk CacheType.IMAGE (CacheMetadataTime.mk "" "" none)
         (CacheMetadataFile.mk "k1" "n" "png" 0 none "h") none)] ["k1"] false)
     (by decide)⟩


/-! ## C5: download failure leaves no partial state -/

theorem erase_append_singleton_self (l : List String) (k : String) (h : k ∉ l) :
    (l ++ [k]).erase k = l := by
  rw [List.erase_append_right _ h]
  simp

theorem downloadRollbackState_fresh (h64 : String → String)
    (hbin : List Nat → String) (env : DownloadEnv) (s : CacheState)
    (request : CacheRequest) (fileInfo : FileInfo) (im : CacheMetadataImage)
    (hitems : createCacheKeyFromRequest h64 request ∉ akeys s.items)
    (hdisk : createCacheKeyFromRequest h64 request ∉ s.disk) :
    createCacheKeyFromRequest h64 request
        ∉ akeys (downloadRollbackState h64 hbin env s request fileInfo im).items
    ∧ createCacheKeyFromRequest h64 request
        ∉ (downloadRollbackState h64 hbin env s request fileInfo im).disk := by
  constructor
  · show createCacheKeyFromRequest h64 request ∉
      akeys (aerase (downloadCommitState h64 hbin env s request fileInfo im).items
        (createCacheKeyFromRequest h64 request))
    rw [akeys_aerase]
    unfold downloadCommitState
    simp only
    rw [show (downloadWriteState h64 env s request).items = s.items from rfl]
    rw [akeys_aset_not_mem _ _ _ hitems]
    rw [erase_append_singleton_self _ _ hitems]
    exact hitems
  · show createCacheKeyFromRequest h64 request ∉
      ((downloadCommitState h64 hbin env s request fileInfo im).disk.erase
        (createCacheKeyFromRequest h64 request))
    rw [show (downloadCommitState h64 hbin env s request fileInfo im).disk
        = (downloadWriteState h64 env s request).disk from rfl]
    unfold downloadWriteState
    simp only
    rw [if_neg (fun hc => hdisk (List.elem_iff.mp hc))]
    rw [erase_append_singleton_self _ _ hdisk]
    exact hdisk

/-- C5: whenever `download` returns an error result (`Cache-Control:
no-store`, HTTP status ≥ 400, unsupported image payload, blob write
failure, or metadata save failure), the items map has no entry for the
request's key and no blob for the key remains on disk (for a key that was
not already cached); moreover an unsupported payload is detected before
the blob write, leaving the state completely untouched, and a metadata
save failure rolls back both the freshly inserted entry and the freshly
written blob. -/
theorem download_atomic (h64 : String → String) (hbin : List Nat → String)
    (env : DownloadEnv) (s : CacheState) (request : CacheRequest)
    (fileInfo : FileInfo)
    (hitems : createCacheKeyFromRequest h64 request ∉ akeys s.items)
    (hdisk : createCacheKeyFromRequest h64 request ∉ s.disk) :
    (((download h64 hbin env s request fileInfo).1.error.isSome →
      (createCacheKeyFromRequest h64 request
          ∉ akeys (download h64 hbin env s request fileInfo).2.items
       ∧ createCacheKeyFromRequest h64 request
          ∉ (download h64 hbin env s request fileInfo).2.disk))
    ∧ ((∃ e, handleImage env.imageSizeOutcome = Except.error e) →
        (download h64 hbin env s request fileInfo).2 = s)) := by
  unfold download
  by_cases hns : responseCacheControl env = some cacheControlNoStore
  · rw [if_pos hns]
    exact ⟨fun _ => ⟨hitems, hdisk⟩, fun _ => rfl⟩
  · rw [if_neg hns]
    by_cases hst : 400 ≤ env.response.status
    · rw [if_pos hst]
      exact ⟨fun _ => ⟨hitems, hdisk⟩, fun _ => rfl⟩
    · rw [if_neg hst]
      rcases him : handleImage env.imageSizeOutcome with e | im
      · exact ⟨fun _ => ⟨hitems, hdisk⟩, fun _ => rfl⟩
      · simp only
        constructor
        · intro herr
          by_cases hw : env.writeBinaryOk = true
          · rw [if_neg (by simp [hw])] at herr ⊢
            by_cases hsv : env.saveMetadataOk = true
            · rw [if_neg (by simp [hsv])] at herr
              simp at herr
            · rw [if_pos (by simp [hsv])]
              exact downloadRollbackState_fresh h64 hbin env s request fileInfo im
                hitems hdisk
          · rw [if_pos (by simp [hw])]
            exact ⟨hitems, hdisk⟩
        · rintro ⟨e, he⟩
          simp at he

/-- Witness for C5 at a concrete input: a 404 response on an empty store
leaves no items entry and no blob for the key. -/
theorem download_atomic_witness :
    (createCacheKeyFromOriginalSrc (fun x => x) "http://e.com/a.png"
        ∉ akeys (CacheState.mk [] [] [] false).items
    ∧ createCacheKeyFromOriginalSrc (fun x => x) "http://e.com/a.png"
        ∉ (CacheState.mk [] [] [] false).disk)
    ∧ ((((download (fun x => x) (fun _ => "")
          (DownloadEnv.mk (RequestUrlResponse.mk 404 [] []) ImageSizeOutcome.otherErr true true "")
          (CacheState.mk [] [] [] false)
          (CacheRequest.mk "http://e.com/a.png" "n.md")
          (FileInfo.mk "a" "png")).1.error.isSome →
        (createCacheKeyFromRequest (fun x => x) (CacheRequest.mk "http://e.com/a.png" "n.md")
            ∉ akeys (download (fun x => x) (fun _ => "")
              (DownloadEnv.mk (RequestUrlResponse.mk 404 [] []) ImageSizeOutcome.otherErr true true "")
              (CacheState.mk [] [] [] false)
              (CacheRequest.mk "http://e.com/a.png" "n.md")
              (FileInfo.mk "a" "png")).2.items
         ∧ createCacheKeyFromRequest (fun x => x) (CacheRequest.mk "http://e.com/a.png" "n.md")
            ∉ (download (fun x => x) (fun _ => "")
              (DownloadEnv.mk (RequestUrlResponse.mk 404 [] []) ImageSizeOutcome.otherErr true true "")
              (CacheState.mk [] [] [] false)
              (CacheRequest.mk "http://e.com/a.png" "n.md")
              (FileInfo.mk "a" "png")).2.disk))
    ∧ ((∃ e, handleImage ImageSizeOutcome.otherErr = Except.error e) →
        (download (fun x => x) (fun _ => "")
          (DownloadEnv.mk (RequestUrlResponse.mk 404 [] []) ImageSizeOutcome.otherErr true true "")
          (CacheState.mk [] [] [] false)
          (CacheRequest.mk "http://e.com/a.png" "n.md")
          (FileInfo.mk "a" "png")).2 = (CacheState.mk [] [] [] false)))) :=
  ⟨⟨by decide, by decide⟩,
   download_atomic (fun x => x) (fun _ => "")
     (DownloadEnv.mk (RequestUrlResponse.mk 404 [] []) ImageSizeOutcome.otherErr true true "")
     (CacheState.mk [] [] [] false)
     (CacheRequest.mk "http://e.com/a.png" "n.md")
     (FileInfo.mk "a" "png") (by decide) (by decide)⟩

/-! ## C6: no-store and HTTP errors write nothing; retryability -/

/-- Counterexample to C6 as stated: an HTTP 500 response (status ≥ 400)
makes `download` return a `CacheFetchError` whose `isRetryable` flag is
`true`, not `false` (`isRetryable = !statusCode || (statusCode >= 500 &&
statusCode < 600)` in the `CacheFetchError` constructor). -/
theorem download_500_is_retryable :
    (download (fun x => x) (fun _ => "")
        (DownloadEnv.mk (RequestUrlResponse.mk 500 [] []) ImageSizeOutcome.otherErr true true "")
        (CacheState.mk [] [] [] false)
        (CacheRequest.mk "http://e.com/a.png" "n.md")
        (FileInfo.mk "a" "png")).1.error
      = some (CacheErr.fetchError "http://e.com/a.png" none "http://e.com/a.png" (some 500))
    ∧ cacheErrIsRetryable
        (CacheErr.fetchError "http://e.com/a.png" none "http://e.com/a.png" (some 500))
      = true := by
  decide

/-- C6 (amended): on a `Cache-Control: no-store` response or an HTTP status
≥ 400, `download` writes nothing — the state (items, disk) is returned
unchanged and no item is produced — and returns an error; that error is
non-retryable for `no-store` and for statuses in `[400, 500)`, while for
statuses in `[500, 600)` it is retryable. -/
theorem download_no_store_or_http_error (h64 : String → String)
    (hbin : List Nat → String) (env : DownloadEnv) (s : CacheState)
    (request : CacheRequest) (fileInfo : FileInfo)
    (h : responseCacheControl env = some cacheControlNoStore
      ∨ 400 ≤ env.response.status) :
    (download h64 hbin env s request fileInfo).2 = s
    ∧ (download h64 hbin env s request fileInfo).1.item = none
    ∧ ∃ e, (download h64 hbin env s request fileInfo).1.error = some e
        ∧ (cacheErrIsRetryable e = true ↔
            (¬ responseCacheControl env = some cacheControlNoStore
             ∧ 500 ≤ env.response.status ∧ env.response.status < 600)) := by
  unfold download
  by_cases hns : responseCacheControl env = some cacheControlNoStore
  · rw [if_pos hns]
    refine ⟨rfl, rfl, _, rfl, ?_⟩
    simp [cacheErrIsRetryable, hns]
  · have hst : 400 ≤ env.response.status := by
      rcases h with h | h
      · exact absurd h hns
      · exact h
    rw [if_neg hns, if_pos hst]
    refine ⟨rfl, rfl, _, rfl, ?_⟩
    simp only [cacheErrIsRetryable]
    rw [decide_eq_true_iff]
    constructor
    · rintro (h0 | h59)
      · omega
      · exact ⟨hns, h59⟩
    · rintro ⟨_, h59⟩
      exact Or.inr h59

/-- Witness for the amended C6 at a concrete input (HTTP 404). -/
theorem download_no_store_or_http_error_witness :
    (responseCacheControl
        (DownloadEnv.mk (RequestUrlResponse.mk 404 [] []) ImageSizeOutcome.otherErr true true "")
        = some cacheControlNoStore
      ∨ 400 ≤ (DownloadEnv.mk (RequestUrlResponse.mk 404 [] []) ImageSizeOutcome.otherErr true true "").response.status)
    ∧ ((download (fun x => x) (fun _ => "")
        (DownloadEnv.mk (RequestUrlResponse.mk 404 [] []) ImageSizeOutcome.otherErr true true "")
        (CacheState.mk [] [] [] false)
        (CacheRequest.mk "http://e.com/a.png" "n.md")
        (FileInfo.mk "a" "png")).2 = (CacheState.mk [] [] [] false)
    ∧ (download (fun x => x) (fun _ => "")
        (DownloadEnv.mk (RequestUrlResponse.mk 404 [] []) ImageSizeOutcome.otherErr true true "")
        (CacheState.mk [] [] [] false)
        (CacheRequest.mk "http://e.com/a.png" "n.md")
        (FileInfo.mk "a" "png")).1.item = none
    ∧ ∃ e, (download (fun x => x) (fun _ => "")
          (DownloadEnv.mk (RequestUrlResponse.mk 404 [] []) ImageSizeOutcome.otherErr true true "")
          (CacheState.mk [] [] [] false)
          (CacheRequest.mk "http://e.com/a.png" "n.md")
          (FileInfo.mk "a" "png")).1.error = some e
        ∧ (cacheErrIsRetryable e = true ↔
            (¬ responseCacheControl
                (DownloadEnv.mk (RequestUrlResponse.mk 404 [] []) ImageSizeOutcome.otherErr true true "")
                = some cacheControlNoStore
             ∧ 500 ≤ (DownloadEnv.mk (RequestUrlResponse.mk 404 [] []) ImageSizeOutcome.otherErr true true "").response.status
             ∧ (DownloadEnv.mk (RequestUrlResponse.mk 404 [] []) ImageSizeOutcome.otherErr true true "").response.status < 600))) :=
  ⟨Or.inr (by decide),
   download_no_store_or_http_error (fun x => x) (fun _ => "")
     (DownloadEnv.mk (RequestUrlResponse.mk 404 [] []) ImageSizeOutcome.otherErr true true "")
     (CacheState.mk [] [] [] false)
     (CacheRequest.mk "http://e.com/a.png" "n.md")
     (FileInfo.mk "a" "png") (Or.inr (by decide))⟩

/-! ## C7: one store call per request group, uniform fan-out -/

theorem alookup_append_of_some {α : Type} {l1 : List (String × α)}
    (l2 : List (String × α)) {k : String} {v : α} (h : alookup l1 k = some v) :
    alookup (l1 ++ l2) k = some v := by
  induction l1 with
  | nil => simp [alookup] at h
  | cons q t ih =>
      by_cases hh : q.1 = k
      · rw [show alookup (q :: t) k = some q.2 by simp [alookup, hh]] at h
        rw [List.cons_append]
        rw [show alookup (q :: (t ++ l2)) k = some q.2 by simp [alookup, hh]]
        exact h
      · rw [show alookup (q :: t) k = alookup t k by simp [alookup, hh]] at h
        rw [List.cons_append]
        rw [show alookup (q :: (t ++ l2)) k = alookup (t ++ l2) k by simp [alookup, hh]]
        exact ih h

theorem alookup_append_of_none {α : Type} {l1 : List (String × α)}
    (l2 : List (String × α)) {k : String} (h : alookup l1 k = none) :
    alookup (l1 ++ l2) k = alookup l2 k := by
  induction l1 with
  | nil => simp
  | cons q t ih =>
      by_cases hh : q.1 = k
      · rw [show alookup (q :: t) k = some q.2 by simp [alookup, hh]] at h
        simp at h
      · rw [show alookup (q :: t) k = alookup t k by simp [alookup, hh]] at h
        rw [List.cons_append]
        rw [show alookup (q :: (t ++ l2)) k = alookup (t ++ l2) k by simp [alookup, hh]]
        exact ih h

theorem groupRequestsStep_nodup (h64 : String → String) (isExternal : String → Bool)
    (path : String) (acc : List (String × RequestGroup) × List Nat) (i : Nat)
    (el : ImgElement) (hnd : (akeys acc.1).Nodup) :
    (akeys (groupRequestsStep h64 isExternal path acc i el).1).Nodup := by
  unfold groupRequestsStep
  rcases el.originalSrc with _ | src
  · exact hnd
  · simp only
    rcases hl : alookup acc.1 (createCacheKeyFromOriginalSrc h64 src) with _ | g
    · rcases validateRequest isExternal src with _ | e
      · simp only
        rw [show akeys (acc.1 ++ [(createCacheKeyFromOriginalSrc h64 src, _)])
            = akeys acc.1 ++ [createCacheKeyFromOriginalSrc h64 src] by
          unfold akeys; rw [List.map_append]; rfl]
        simp [List.nodup_append, hnd, (alookup_eq_none_iff _ _).mp hl]
      · exact hnd
    · exact nodup_akeys_aset _ _ _ hnd

theorem groupRequestsAux_nodup (h64 : String → String) (isExternal : String → Bool)
    (path : String) (elems : List ImgElement) (i : Nat)
    (acc : List (String × RequestGroup) × List Nat) (hnd : (akeys acc.1).Nodup) :
    (akeys (groupRequestsAux h64 isExternal path elems i acc).1).Nodup := by
  induction elems generalizing i acc with
  | nil => exact hnd
  | cons el rest ih =>
      exact ih (i + 1) _ (groupRequestsStep_nodup h64 isExternal path acc i el hnd)

theorem groupRequestsStep_mono (h64 : String → String) (isExternal : String → Bool)
    (path : String) (acc : List (String × RequestGroup) × List Nat) (i : Nat)
    (el : ImgElement) (k : String) (g : RequestGroup)
    (h : alookup acc.1 k = some g) :
    ∃ g', alookup (groupRequestsStep h64 isExternal path acc i el).1 k = some g'
      ∧ ∀ j ∈ g.imageElements, j ∈ g'.imageElements := by
  unfold groupRequestsStep
  rcases el.originalSrc with _ | src
  · exact ⟨g, h, fun j hj => hj⟩
  · simp only
    rcases hl : alookup acc.1 (createCacheKeyFromOriginalSrc h64 src) with _ | grp
    · rcases validateRequest isExternal src with _ | e
      · simp only
        refine ⟨g, alookup_append_of_some _ h, fun j hj => hj⟩
      · exact ⟨g, h, fun j hj => hj⟩
    · by_cases hk : k = createCacheKeyFromOriginalSrc h64 src
      · subst hk
        have hgg : g = grp := by
          rw [h] at hl
          injection hl
        refine ⟨_, alookup_aset_self _ _ _, ?_⟩
        intro j hj
        simp only
        exact List.mem_append.mpr (Or.inl (hgg ▸ hj))
      · exact ⟨g, by rw [alookup_aset_ne _ _ _ _ hk]; exact h, fun j hj => hj⟩

theorem groupRequestsAux_mono (h64 : String → String) (isExternal : String → Bool)
    (path : String) (elems : List ImgElement) (i : Nat)
    (acc : List (String × RequestGroup) × List Nat) (k : String) (g : RequestGroup)
    (h : alookup acc.1 k = some g) :
    ∃ g', alookup (groupRequestsAux h64 isExternal path elems i acc).1 k = some g'
      ∧ ∀ j ∈ g.imageElements, j ∈ g'.imageElements := by
  induction elems generalizing i acc g with
  | nil => exact ⟨g, h, fun j hj => hj⟩
  | cons el rest ih =>
      obtain ⟨g1, hg1, hsub1⟩ := groupRequestsStep_mono h64 isExternal path acc i el k g h
      obtain ⟨g2, hg2, hsub2⟩ := ih (i + 1) _ g1 hg1
      exact ⟨g2, hg2, fun j hj => hsub2 j (hsub1 j hj)⟩

theorem groupRequestsAux_mem (h64 : String → String) (isExternal : String → Bool)
    (path : String) (elems : List ImgElement) (i : Nat)
    (acc : List (String × RequestGroup) × List Nat) (src : String)
    (hval : validateRequest isExternal src = none) :
    ∀ pos (hpos : pos < elems.length),
      (elems.get ⟨pos, hpos⟩).originalSrc = some src →
      ∃ g, alookup (groupRequestsAux h64 isExternal path elems i acc).1
          (createCacheKeyFromOriginalSrc h64 src) = some g
        ∧ (i + pos) ∈ g.imageElements := by
  induction elems generalizing i acc with
  | nil =>
      intro pos hpos
      simp at hpos
  | cons el rest ih =>
      intro pos hpos hsrc
      cases pos with
      | zero =>
          simp only [List.get] at hsrc
          have hstep : ∃ gmid,
              alookup (groupRequestsStep h64 isExternal path acc i el).1
                (createCacheKeyFromOriginalSrc h64 src) = some gmid
              ∧ i ∈ gmid.imageElements := by
            unfold groupRequestsStep
            rw [hsrc]
            simp only
            rcases hl : alookup acc.1 (createCacheKeyFromOriginalSrc h64 src) with _ | grp
            · rw [hval]
              simp only
              refine ⟨RequestGroup.mk (createRequest src path) [i] [el.alt.getD ""] false, ?_, ?_⟩
              · rw [alookup_append_of_none _ hl]
                simp [alookup]
              · simp
            · refine ⟨_, alookup_aset_self _ _ _, ?_⟩
              simp
          obtain ⟨gmid, hgmid, hi⟩ := hstep
          obtain ⟨g, hg, hsub⟩ := groupRequestsAux_mono h64 isExternal path rest (i + 1)
            _ _ gmid hgmid
          refine ⟨g, hg, ?_⟩
          rw [Nat.add_zero]
          exact hsub i hi
      | succ pos' =>
          have hpos' : pos' < rest.length := Nat.lt_of_succ_lt_succ hpos
          have hsrc' : (rest.get ⟨pos', hpos'⟩).originalSrc = some src := hsrc
          obtain ⟨g, hg, hmem⟩ := ih (i + 1) (groupRequestsStep h64 isExternal path acc i el)
            pos' hpos' hsrc'
          refine ⟨g, hg, ?_⟩
          rw [show i + (pos' + 1) = (i + 1) + pos' by omega]
          exact hmem

theorem count_akeys_eq_one {α : Type} (l : List (String × α)) (k : String)
    (hnd : (akeys l).Nodup) (hm : k ∈ akeys l) : (l.map Prod.fst).count k = 1 :=
  List.count_eq_one_of_mem hnd hm

/-- C7: within one pass, `groupRequests` groups the placeholder elements by
the cache key of their (original) source: the produced groups carry
pairwise-distinct keys, every element whose source is `src` (valid) lands
in the single group registered at `src`'s cache key, the number of store
calls `requestCache` makes for that key — one `existingCache` lookup per
group and at most one `getCache` download per group — is exactly 1, and
the single group result is fanned out identically to every element of the
group (all marked `CACHE_SUCCEEDED` on success, all `CACHE_FAILED` or
`INVALID` on failure). -/
theorem groupRequests_dedup (h64 : String → String) (isExternal : String → Bool)
    (path : String) (imageElements : List ImgElement) :
    (akeys (groupRequests h64 isExternal path imageElements).1).Nodup
    ∧ (∀ src, validateRequest isExternal src = none →
        ∀ pos (hpos : pos < imageElements.length),
          (imageElements.get ⟨pos, hpos⟩).originalSrc = some src →
          ∃ g, alookup (groupRequests h64 isExternal path imageElements).1
              (createCacheKeyFromOriginalSrc h64 src) = some g
            ∧ pos ∈ g.imageElements
            ∧ storeCallsForKey (groupRequests h64 isExternal path imageElements).1
                (createCacheKeyFromOriginalSrc h64 src) = 1)
    ∧ (∀ (g : RequestGroup) (hasItem : Bool) (fileExists : Option Bool)
          (loadOk : Bool) (preState : HTMLElementCacheState),
        ∀ q1 ∈ fanOutGroup g hasItem fileExists loadOk preState,
        ∀ q2 ∈ fanOutGroup g hasItem fileExists loadOk preState, q1.2 = q2.2) := by
  have hnd : (akeys (groupRequests h64 isExternal path imageElements).1).Nodup :=
    groupRequestsAux_nodup h64 isExternal path imageElements 0 ([], []) (by simp [akeys])
  refine ⟨hnd, ?_, ?_⟩
  · intro src hval pos hpos hsrc
    obtain ⟨g, hg, hmem⟩ :=
      groupRequestsAux_mem h64 isExternal path imageElements 0 ([], []) src hval pos hpos hsrc
    refine ⟨g, hg, ?_, ?_⟩
    · simpa using hmem
    · exact count_akeys_eq_one _ _ hnd (mem_akeys_of_alookup hg)
  · intro g hasItem fileExists loadOk preState q1 hq1 q2 hq2
    unfold fanOutGroup at hq1 hq2
    obtain ⟨i1, _, hq1'⟩ := List.mem_map.mp hq1
    obtain ⟨i2, _, hq2'⟩ := List.mem_map.mp hq2
    rw [← hq1', ← hq2']

/-- Witness for C7 at a concrete input: two placeholders sharing one
(valid) source end up in a single group with exactly one store call. -/
theorem groupRequests_dedup_witness :
    validateRequest (fun _ => true) "http://x/a.png" = none
    ∧ (∃ g, alookup (groupRequests (fun x => x) (fun _ => true) "n.md"
          [ImgElement.mk (some "http://x/a.png") none,
           ImgElement.mk (some "http://x/a.png") (some "alt")]).1
          (createCacheKeyFromOriginalSrc (fun x => x) "http://x/a.png") = some g
        ∧ 0 ∈ g.imageElements
        ∧ storeCallsForKey (groupRequests (fun x => x) (fun _ => true) "n.md"
            [ImgElement.mk (some "http://x/a.png") none,
             ImgElement.mk (some "http://x/a.png") (some "alt")]).1
            (createCacheKeyFromOriginalSrc (fun x => x) "http://x/a.png") = 1) :=
  ⟨by decide,
   (groupRequests_dedup (fun x => x) (fun _ => true) "n.md"
      [ImgElement.mk (some "http://x/a.png") none,
       ImgElement.mk (some "http://x/a.png") (some "alt")]).2.1
     "http://x/a.png" (by decide) 0 (by decide) (by decide)⟩
